import Mathlib

/-!
Verification development for the KinectServer streaming fabric
(`KinectServer.cpp`): a shallow embedding of the camera-state frame
callbacks, the triple-buffer handoff, the broadcaster (streaming thread),
the acceptor (listening thread), and the constructor logic, together with
theorems about meta-frame assembly, fan-out error handling and the wire
protocol.

Machine integers of the source (`unsigned int`) are modelled as `Nat`:
none of the modelled counters (frame indices, meta-frame index, client
counts, camera counts) can realistically reach 2^32, and the source never
relies on wraparound except for the `--j; ++j` dance in the fan-out loop,
which is modelled by its net effect (the index stays put while the list
shrinks), exactly what the unsigned wraparound achieves at every value of
`j` including 0.  Opaque byte blobs (compressed frames, codec headers) are
`List Nat`.  Timestamps (`double` in the source) are opaque to every claim
and modelled as `Nat` tags.
-/

namespace KinectServer

/-- Kind of a per-camera stream (the Kinect delivers a color and a depth
stream per camera). -/
inductive StreamKind where
  | color
  | depth
deriving DecidableEq, Repr

/-- The three marshalled camera-parameter records written by
`CameraState::writeHeaders` after the two codec headers: the intrinsic
color projection, the intrinsic depth projection, and the extrinsic
transform.  Their numeric content is produced by out-of-scope collaborators
(`getIntrinsicParameters` / `getExtrinsicParameters`), so they are
modelled as opaque tags. -/
inductive ProjKind where
  | colorProj
  | depthProj
  | extrinsicXform
deriving DecidableEq, Repr

/-- One item written to a client socket.  Each constructor corresponds to
one write call in the source:
* `u32 v` — a `write<unsigned int>(v)` (the magic number, the camera
  count, the meta-frame index, the frame identifier);
* `headerBlob i k bytes` — `colorHeaders.writeToSink` /
  `depthHeaders.writeToSink` inside `CameraState::writeHeaders` for
  camera `i` (the camera index and stream kind record which source buffer
  produced the bytes);
* `projBlob i p` — one of the three `Misc::Marshaller::write` calls in
  `CameraState::writeHeaders`;
* `frameBlob m fid bytes` — `data.writeToSink(*clients[j])` in the
  streaming thread; the meta-frame index `m` and frame identifier `fid`
  under which the blob was sent are recorded on the item (on the wire they
  are carried by the two preceding `u32` writes). -/
inductive WireItem where
  | u32 (v : Nat)
  | headerBlob (cam : Nat) (k : StreamKind) (bytes : List Nat)
  | projBlob (cam : Nat) (p : ProjKind)
  | frameBlob (metaIdx fid : Nat) (bytes : List Nat)
deriving DecidableEq, Repr

/-- `KinectServer::CameraState::CompressedFrame`: sequence index,
timestamp, and the compressed data blob. -/
structure CompressedFrame where
  index : Nat
  timeStamp : Nat
  data : List Nat
deriving DecidableEq, Repr

/-- The `Threads::TripleBuffer<CompressedFrame>` as seen through the
operations the server uses: `postNewValue` (here fused with
`startNewValue`, which merely hands out the slot that `postNewValue`
commits) publishes a new committed value; `lockNewValue` succeeds iff a
commit newer than the reader's locked version exists.  `committedVersion`
counts commits; `lockedVersion` is the version the reader holds. -/
structure TripleBuffer where
  committedVersion : Nat
  committed : Option CompressedFrame
  lockedVersion : Nat
  locked : Option CompressedFrame
deriving DecidableEq, Repr

/-- A triple buffer in its freshly-constructed state: nothing committed,
nothing locked. -/
def TripleBuffer.empty : TripleBuffer :=
  { committedVersion := 0, committed := none, lockedVersion := 0, locked := none }

/-- `startNewValue` + fill + `postNewValue`: atomically publish `f` as the
most recent committed value. -/
def postNewValue (tb : TripleBuffer) (f : CompressedFrame) : TripleBuffer :=
  { tb with committedVersion := tb.committedVersion + 1, committed := some f }

/-- `lockNewValue`: if a commit newer than the locked version exists, lock
it and return the updated buffer; otherwise return `none` (the C++ method
returns `false` and leaves the buffer untouched). -/
def lockNewValue (tb : TripleBuffer) : Option TripleBuffer :=
  if tb.lockedVersion < tb.committedVersion then
    some { tb with lockedVersion := tb.committedVersion, locked := tb.committed }
  else
    none

/-- `getLockedValue().data`: the data blob of the currently locked frame
(the server only calls this right after a successful `lockNewValue`, so
the `none` default is never observed in a run). -/
def lockedData (tb : TripleBuffer) : List Nat :=
  match tb.locked with
  | some f => f.data
  | none => []

/-- `getLockedValue().index`. -/
def lockedIndex (tb : TripleBuffer) : Nat :=
  match tb.locked with
  | some f => f.index
  | none => 0

/-- `KinectServer::CameraState`: the codec header blobs captured once in
the constructor (by `colorFile.storeBuffers(colorHeaders)` /
`depthFile.storeBuffers(depthHeaders)`, before `startStreaming` is ever
called), the two triple buffers, the per-kind frame indices and the
per-kind `hasSent` flags used by the meta-frame assembler.  The camera
device, compressors and files are out-of-scope collaborators; a
compressed blob enters the model as the payload of a commit event. -/
structure CameraState where
  colorHeaders : List Nat
  depthHeaders : List Nat
  colorFrames : TripleBuffer
  colorFrameIndex : Nat
  hasSentColorFrame : Bool
  depthFrames : TripleBuffer
  depthFrameIndex : Nat
  hasSentDepthFrame : Bool
deriving DecidableEq, Repr

/-- Construction data for one camera: the codec header blobs its two
compressors emit at initialization. -/
structure CameraInit where
  colorHeaderBytes : List Nat
  depthHeaderBytes : List Nat
deriving DecidableEq, Repr

/-- The `CameraState` constructor: captures the header blobs, zeroes both
frame indices, clears both `hasSent` flags, leaves both triple buffers
empty. -/
def initCamera (ci : CameraInit) : CameraState :=
  { colorHeaders := ci.colorHeaderBytes
    depthHeaders := ci.depthHeaderBytes
    colorFrames := TripleBuffer.empty
    colorFrameIndex := 0
    hasSentColorFrame := false
    depthFrames := TripleBuffer.empty
    depthFrameIndex := 0
    hasSentDepthFrame := false }

/-- `CameraState::colorStreamingCallback`: store a compressed frame
carrying the current `colorFrameIndex` and the frame timestamp into the
color triple buffer, post it, then increment `colorFrameIndex`.  The
compressor (`colorCompressor.writeFrame` / `colorFile.storeBuffers`) is an
opaque collaborator; its output blob is the `data` argument. -/
def colorStreamingCallback (cs : CameraState) (ts : Nat) (data : List Nat) : CameraState :=
  { cs with
    colorFrames := postNewValue cs.colorFrames
      { index := cs.colorFrameIndex, timeStamp := ts, data := data }
    colorFrameIndex := cs.colorFrameIndex + 1 }

/-- `CameraState::depthStreamingCallback`: symmetric to the color
callback, against the depth triple buffer and `depthFrameIndex`. -/
def depthStreamingCallback (cs : CameraState) (ts : Nat) (data : List Nat) : CameraState :=
  { cs with
    depthFrames := postNewValue cs.depthFrames
      { index := cs.depthFrameIndex, timeStamp := ts, data := data }
    depthFrameIndex := cs.depthFrameIndex + 1 }

/-- The sequence of `index` values observed in the color triple buffer's
committed slot over a run of color callbacks, one observation per
commit. -/
def colorIndexTrace (cs : CameraState) : List (Nat × List Nat) → List Nat
  | [] => []
  | (ts, d) :: rest =>
    let cs' := colorStreamingCallback cs ts d
    (match cs'.colorFrames.committed with
      | some f => f.index
      | none => 0) :: colorIndexTrace cs' rest

/-- Depth counterpart of `colorIndexTrace`. -/
def depthIndexTrace (cs : CameraState) : List (Nat × List Nat) → List Nat
  | [] => []
  | (ts, d) :: rest =>
    let cs' := depthStreamingCallback cs ts d
    (match cs'.depthFrames.committed with
      | some f => f.index
      | none => 0) :: depthIndexTrace cs' rest

/-! ## Clients and the per-frame fan-out loop -/

/-- What a socket write to a given client does.  `Comm::TCPPipe` writes
either succeed, throw a `std::runtime_error` (caught by the first catch
clause of the fan-out loop), or throw some other exception (caught by the
`catch(...)` clause, which rethrows after removing the client). -/
inductive WriteBehavior where
  | ok
  | throwRuntime
  | throwSpurious
deriving DecidableEq, Repr

/-- One connected client (`Comm::TCPPipe*` in the `clients` vector).
`trace` is everything the server has written to this socket, in order.
`incoming` models the client-to-server direction: the `unsigned int`
values the client has sent and the server has not yet read;
`waitForData(Misc::Time(0,0))` returns true iff it is nonempty.
`writeBehavior` models whether writes on this socket throw. -/
structure Client where
  cid : Nat
  trace : List WireItem
  incoming : List Nat
  writeBehavior : WriteBehavior
deriving DecidableEq, Repr

/-- Append one frame message to a client's trace: the
`write<unsigned int>(metaFrameIndex)`, `write<unsigned int>(fid)` and
`data.writeToSink` calls of the fan-out loop (followed by `flush`, which
writes nothing of its own). -/
def pushFrame (m fid : Nat) (blob : List Nat) (c : Client) : Client :=
  { c with trace := c.trace ++ [.u32 m, .u32 fid, .frameBlob m fid blob] }

/-- Outcome of the `try` block of the fan-out loop for one client:
* `disconnected r` — `waitForData` was true, the one `read<unsigned int>`
  returned `r`, the client was deleted (no frame written to it);
* `served c'` — `waitForData` was false and all three writes succeeded;
* `errRemoved` — a write threw `std::runtime_error`; the client was
  deleted and the loop continues;
* `spuriousEsc` — a write threw something else; the client was deleted
  and the exception is rethrown, terminating the streaming thread. -/
inductive ServeOutcome where
  | disconnected (readRequest : Nat)
  | served (c' : Client)
  | errRemoved
  | spuriousEsc
deriving DecidableEq, Repr

/-- The body of the fan-out loop for one client `clients[j]`, up to the
list editing of the catch/disconnect paths (which `fanoutLoop` performs). -/
def serveClient (m fid : Nat) (blob : List Nat) (c : Client) : ServeOutcome :=
  match c.incoming with
  | r :: _ => .disconnected r
  | [] =>
    match c.writeBehavior with
    | .ok => .served (pushFrame m fid blob c)
    | .throwRuntime => .errRemoved
    | .throwSpurious => .spuriousEsc

/-- Result of one whole fan-out (`for(unsigned int j=0;j<numClients;++j)`):
the surviving client list, whether an index access fell outside the vector
(undefined behaviour in the C++; shown unreachable), and whether a
non-`runtime_error` exception escaped the loop (rethrown by `catch(...)`,
terminating the streaming thread). -/
structure FanoutResult where
  clients : List Client
  crashed : Bool
  escaped : Bool
deriving DecidableEq, Repr

/-- The fan-out loop over the client vector.  `numClients` is the cached
`clients.size()` snapshot taken before the loop.  On every removal path
the source deletes `clients[j]`, erases it, and does `--numClients; --j`
followed by the loop's `++j` — the net effect, modelled here, is that the
index stays put while the list shrinks by one (the unsigned wraparound at
`j = 0` also nets to the same thing).  `fuel` only bounds the structural
recursion: every iteration decreases `numClients - j` by one, so entering
the loop with `fuel = numClients` (as every caller does) makes the
`j < numClients` guard, not the fuel, end the loop. -/
def fanoutLoop (m fid : Nat) (blob : List Nat) (clients : List Client)
    (j numClients fuel : Nat) : FanoutResult :=
  match fuel with
  | 0 => { clients := clients, crashed := false, escaped := false }
  | fuel + 1 =>
    if j < numClients then
      match clients[j]? with
      | none => { clients := clients, crashed := true, escaped := false }
      | some c =>
        match serveClient m fid blob c with
        | .disconnected _ =>
          fanoutLoop m fid blob (clients.eraseIdx j) j (numClients - 1) fuel
        | .served c' =>
          fanoutLoop m fid blob (clients.set j c') (j + 1) numClients fuel
        | .errRemoved =>
          fanoutLoop m fid blob (clients.eraseIdx j) j (numClients - 1) fuel
        | .spuriousEsc =>
          { clients := clients.eraseIdx j, crashed := false, escaped := true }
    else
      { clients := clients, crashed := false, escaped := false }

/-- Structural restatement of the fan-out: serve the clients left to
right, dropping the removed ones; an escaping exception leaves the rest of
the list unserved.  `fanoutLoop` is proved to coincide with it. -/
def processAll (m fid : Nat) (blob : List Nat) : List Client → List Client × Bool
  | [] => ([], false)
  | c :: rest =>
    match serveClient m fid blob c with
    | .served c' =>
      let r := processAll m fid blob rest
      (c' :: r.1, r.2)
    | .disconnected _ => processAll m fid blob rest
    | .errRemoved => processAll m fid blob rest
    | .spuriousEsc => (rest, true)

/-- A client that sends no disconnect request and whose writes succeed. -/
def goodClient (c : Client) : Prop :=
  c.incoming = [] ∧ c.writeBehavior = .ok

instance (c : Client) : Decidable (goodClient c) := by
  unfold goodClient; infer_instance

/-! ## The acceptor (listening thread) -/

/-- The per-camera data the acceptor reads when serving a new connection:
the color and depth codec header blobs (projection records are opaque
tags, see `ProjKind`).  Extracted as a view so that the initialization
snapshot provably depends on nothing else of the camera states. -/
def headerView (cams : List CameraState) : List (List Nat × List Nat) :=
  cams.map fun cs => (cs.colorHeaders, cs.depthHeaders)

/-- The items `CameraState::writeHeaders` emits for the cameras
`base, base+1, ...`: for each camera its color codec header, depth codec
header, color projection, depth projection and extrinsic transform. -/
def headerItems (base : Nat) : List (List Nat × List Nat) → List WireItem
  | [] => []
  | (ch, dh) :: rest =>
    WireItem.headerBlob base .color ch ::
    WireItem.headerBlob base .depth dh ::
    WireItem.projBlob base .colorProj ::
    WireItem.projBlob base .depthProj ::
    WireItem.projBlob base .extrinsicXform ::
    headerItems (base + 1) rest

/-- Everything the listening thread writes to a freshly accepted socket
before appending it to the client list: the magic number `0x12345678`,
the camera count, then `writeHeaders` for each camera in index order. -/
def initSnapshotTrace (hv : List (List Nat × List Nat)) : List WireItem :=
  WireItem.u32 0x12345678 :: WireItem.u32 hv.length :: headerItems 0 hv

/-- The initialization snapshot as §6 of the specification words it: a u32
magic constant `0x12345678`, a u32 camera count `N`, then for each camera
`i` in `0..N` its color header blob, depth header blob, color projection,
depth projection and extrinsic transform.  Stated over the enumerated
camera list; compared against the code-derived `initSnapshotTrace`. -/
def specInitSnapshot (hv : List (List Nat × List Nat)) : List WireItem :=
  [WireItem.u32 0x12345678, WireItem.u32 hv.length] ++
    (hv.enum.map fun p =>
      [WireItem.headerBlob p.1 .color p.2.1,
       WireItem.headerBlob p.1 .depth p.2.2,
       WireItem.projBlob p.1 .colorProj,
       WireItem.projBlob p.1 .depthProj,
       WireItem.projBlob p.1 .extrinsicXform]).flatten

/-- Result of one accepted connection in the listening thread. -/
structure AcceptResult where
  clients : List Client
  socketTrace : List WireItem
  added : Bool
  socketDeleted : Bool
deriving DecidableEq, Repr

/-- One iteration of the listening thread after `accept` succeeded:
attempt the header send; if every write (and the flush) succeeds, append
the new client to the list under the client-list mutex; if the `k`-th
write throws (`failAt = some k`; both catch clauses behave alike here),
the socket has received only the first `k` items, it is deleted, and the
client list is left unchanged. -/
def listenerAcceptStep (hv : List (List Nat × List Nat)) (clients : List Client)
    (cid : Nat) (incoming : List Nat) (wb : WriteBehavior)
    (failAt : Option Nat) : AcceptResult :=
  let full := initSnapshotTrace hv
  match failAt with
  | none =>
    { clients := clients ++ [{ cid := cid, trace := full, incoming := incoming,
                               writeBehavior := wb }]
      socketTrace := full
      added := true
      socketDeleted := false }
  | some k =>
    { clients := clients
      socketTrace := full.take k
      added := false
      socketDeleted := true }

/-! ## The broadcaster (streaming thread) -/

/-- One fan-out performed by the broadcaster, as recorded in the
broadcaster-side delivery log: the meta-frame index and frame identifier
it was sent under and the blob that was written. -/
structure LogEntry where
  metaIdx : Nat
  fid : Nat
  data : List Nat
deriving DecidableEq, Repr

/-- The camera a delivery log entry belongs to (`fid = 2*i` for color,
`2*i+1` for depth). -/
def LogEntry.cam (e : LogEntry) : Nat := e.fid / 2

/-- The whole server state touched by the two threads: the camera states,
the client list, the meta-frame protocol state (`metaFrameIndex`,
`numMissingColorFrames`, `numMissingDepthFrames`), a flag recording that
the streaming thread died rethrowing a non-`runtime_error` exception, and
the broadcaster's delivery log (observation only; nothing reads it). -/
structure ServerState where
  cameras : List CameraState
  clients : List Client
  metaFrameIndex : Nat
  numMissingColorFrames : Nat
  numMissingDepthFrames : Nat
  terminated : Bool
  log : List LogEntry
deriving DecidableEq, Repr

/-- The color half of one camera iteration of the broadcaster scan:
`if(!cameraStates[i]->hasSentColorFrame && cameraStates[i]->colorFrames.lockNewValue())`.
On success: fan the locked frame out to all clients under the client-list
mutex, then set `hasSentColorFrame`, decrement `numMissingColorFrames` and
report `foundFrame`.  If the fan-out rethrew a non-`runtime_error`
exception, the flag update and decrement are skipped (the exception
propagates out of the streaming thread) but the triple-buffer lock and
the client-list edits already happened. -/
def colorCheck (st : ServerState) (i : Nat) : Bool × ServerState :=
  match st.cameras[i]? with
  | none => (false, st)
  | some cs =>
    if cs.hasSentColorFrame then (false, st)
    else
      match lockNewValue cs.colorFrames with
      | none => (false, st)
      | some tb =>
        let blob := lockedData tb
        let r := fanoutLoop st.metaFrameIndex (2 * i + 0) blob st.clients 0 st.clients.length st.clients.length
        if r.escaped then
          (true, { st with
            cameras := st.cameras.set i { cs with colorFrames := tb }
            clients := r.clients
            log := st.log ++ [{ metaIdx := st.metaFrameIndex, fid := 2 * i + 0, data := blob }]
            terminated := true })
        else
          (true, { st with
            cameras := st.cameras.set i { cs with colorFrames := tb, hasSentColorFrame := true }
            clients := r.clients
            log := st.log ++ [{ metaIdx := st.metaFrameIndex, fid := 2 * i + 0, data := blob }]
            numMissingColorFrames := st.numMissingColorFrames - 1 })

/-- The depth half of one camera iteration, symmetric to `colorCheck`
(frame identifier `i*2+1`, `hasSentDepthFrame`, `numMissingDepthFrames`). -/
def depthCheck (st : ServerState) (i : Nat) : Bool × ServerState :=
  match st.cameras[i]? with
  | none => (false, st)
  | some cs =>
    if cs.hasSentDepthFrame then (false, st)
    else
      match lockNewValue cs.depthFrames with
      | none => (false, st)
      | some tb =>
        let blob := lockedData tb
        let r := fanoutLoop st.metaFrameIndex (2 * i + 1) blob st.clients 0 st.clients.length st.clients.length
        if r.escaped then
          (true, { st with
            cameras := st.cameras.set i { cs with depthFrames := tb }
            clients := r.clients
            log := st.log ++ [{ metaIdx := st.metaFrameIndex, fid := 2 * i + 1, data := blob }]
            terminated := true })
        else
          (true, { st with
            cameras := st.cameras.set i { cs with depthFrames := tb, hasSentDepthFrame := true }
            clients := r.clients
            log := st.log ++ [{ metaIdx := st.metaFrameIndex, fid := 2 * i + 1, data := blob }]
            numMissingDepthFrames := st.numMissingDepthFrames - 1 })

/-- The scan `for(unsigned int i=0;!foundFrame&&i<numCameras;++i)`.  Each
iteration runs the color check and then — unguarded by `foundFrame` — the
depth check for the same camera; the loop condition stops the scan as soon
as either check delivered.  An escaping exception aborts the scan
immediately.  `fuel` bounds the recursion; the scan is always entered with
`fuel = numCameras`, which the dynamic `i < length` guard makes exact. -/
def scanAux (st : ServerState) (i : Nat) : Nat → ServerState
  | 0 => st
  | fuel + 1 =>
    if i < st.cameras.length then
      let rc := colorCheck st i
      if rc.2.terminated then rc.2
      else
        let rd := depthCheck rc.2 i
        if rd.2.terminated then rd.2
        else if rc.1 || rd.1 then rd.2
        else scanAux rd.2 (i + 1) fuel
    else st

/-- One full pass of the broadcaster's frame-finding loop. -/
def scanPass (st : ServerState) : ServerState :=
  scanAux st 0 st.cameras.length

/-- One step of the streaming thread: while frames are missing, run a scan
pass (a pass that finds nothing corresponds to the wait on
`newFrameCond`, which changes nothing); once both counters are zero, start
a new meta-frame: `++metaFrameIndex`, clear every `hasSent` flag, reset
both counters to `numCameras`.  A terminated thread does nothing. -/
def broadcasterStep (st : ServerState) : ServerState :=
  if st.terminated then st
  else if 0 < st.numMissingDepthFrames ∨ 0 < st.numMissingColorFrames then
    scanPass st
  else
    { st with
      metaFrameIndex := st.metaFrameIndex + 1
      cameras := st.cameras.map fun cs =>
        { cs with hasSentColorFrame := false, hasSentDepthFrame := false }
      numMissingColorFrames := st.cameras.length
      numMissingDepthFrames := st.cameras.length }

/-- Events of the interleaving semantics:
* `commitColor i ts data` / `commitDepth i ts data` — camera `i`'s decoder
  thread runs the corresponding streaming callback with a frame whose
  compressed blob is `data` (and signals `newFrameCond`);
* `bstep` — the streaming thread runs one iteration (scan pass or
  meta-frame rollover);
* `connect cid incoming wb failAt` — the listening thread accepts a
  connection and serves it (`failAt` as in `listenerAcceptStep`). -/
inductive Ev where
  | commitColor (i ts : Nat) (data : List Nat)
  | commitDepth (i ts : Nat) (data : List Nat)
  | bstep
  | connect (cid : Nat) (incoming : List Nat) (wb : WriteBehavior) (failAt : Option Nat)
deriving DecidableEq, Repr

/-- The transition function of the interleaving semantics. -/
def step (st : ServerState) (ev : Ev) : ServerState :=
  match ev with
  | .commitColor i ts data =>
    match st.cameras[i]? with
    | some cs => { st with cameras := st.cameras.set i (colorStreamingCallback cs ts data) }
    | none => st
  | .commitDepth i ts data =>
    match st.cameras[i]? with
    | some cs => { st with cameras := st.cameras.set i (depthStreamingCallback cs ts data) }
    | none => st
  | .bstep => broadcasterStep st
  | .connect cid incoming wb failAt =>
    { st with clients :=
        (listenerAcceptStep (headerView st.cameras) st.clients cid incoming wb failAt).clients }

/-- Run a list of events from a state. -/
def runFrom (st : ServerState) : List Ev → ServerState
  | [] => st
  | ev :: rest => runFrom (step st ev) rest

/-- The streaming state as the `KinectServer` constructor leaves it:
`metaFrameIndex = 0`, both missing-frame counters equal to the camera
count, no clients yet, every camera state freshly constructed. -/
def initServer (cis : List CameraInit) : ServerState :=
  { cameras := cis.map initCamera
    clients := []
    metaFrameIndex := 0
    numMissingColorFrames := cis.length
    numMissingDepthFrames := cis.length
    terminated := false
    log := [] }

/-! ## The constructor's camera enumeration and thread startup -/

/-- Outcome of the `KinectServer` constructor as far as the claims are
concerned: how many configured cameras were found on the USB bus, which
configured serial numbers were logged as missing, and which threads were
started. -/
structure ServerInit where
  numCameras : Nat
  missing : List Nat
  listeningThreadStarted : Bool
  streamingThreadStarted : Bool
deriving DecidableEq, Repr

/-- The constructor's per-camera loop: for each configured serial number,
search the enumerated Kinect devices for a match; found cameras get a
`CameraState` (counted by `numFoundCameras`), missing ones are logged to
`stderr` and skipped.  Returns (found count, missing serials in order). -/
def ctorScan (bus : List Nat) : List Nat → Nat × List Nat
  | [] => (0, [])
  | s :: rest =>
    let r := ctorScan bus rest
    if bus.contains s then (r.1 + 1, r.2)
    else (r.1, s :: r.2)

/-- The tail of the `KinectServer` constructor: `numCameras` is reassigned
to the found-camera count, the listening thread is started, and the
streaming thread is started iff `numCameras > 0`. -/
def kinectServerCtor (bus config : List Nat) : ServerInit :=
  let r := ctorScan bus config
  { numCameras := r.1
    missing := r.2
    listeningThreadStarted := true
    streamingThreadStarted := 0 < r.1 }

/-! ## Observations used to state the claims -/

/-- `true` on compressed-frame blobs, `false` on every other wire item. -/
def WireItem.isFrameBlob : WireItem → Bool
  | .frameBlob _ _ _ => true
  | _ => false

/-- `true` on codec-header blobs. -/
def WireItem.isHeaderBlob : WireItem → Bool
  | .headerBlob _ _ _ => true
  | _ => false

/-- `true` on the codec-header blob of camera `i` and stream kind `k`. -/
def WireItem.isHeaderOf (i : Nat) (k : StreamKind) : WireItem → Bool
  | .headerBlob j k' _ => j == i && k' == k
  | _ => false

/-- `true` on the items the streaming thread writes (`u32` meta-frame
index / frame identifier and compressed-frame blobs). -/
def WireItem.isStreamItem : WireItem → Bool
  | .u32 _ => true
  | .frameBlob _ _ _ => true
  | _ => false

/-- Number of compressed-frame blobs sent under meta-frame index `m` and
frame identifier `fid` in a socket trace. -/
def frameCount (m fid : Nat) (tr : List WireItem) : Nat :=
  tr.countP fun it =>
    match it with
    | .frameBlob m' fid' _ => m' == m && fid' == fid
    | _ => false

/-- The `hasSent` flag the broadcaster consults for frame identifier
`fid` (`fid = 2*i` — camera `i` color, `fid = 2*i+1` — camera `i`
depth); `false` when no such camera exists. -/
def sentFlag (st : ServerState) (fid : Nat) : Bool :=
  match st.cameras[fid / 2]? with
  | none => false
  | some cs => if fid % 2 == 0 then cs.hasSentColorFrame else cs.hasSentDepthFrame

/-- Camera `i` has an unsent color frame the broadcaster could deliver:
`hasSentColorFrame` is clear and `lockNewValue` would succeed. -/
def availColor (st : ServerState) (i : Nat) : Bool :=
  match st.cameras[i]? with
  | none => false
  | some cs =>
    !cs.hasSentColorFrame &&
      decide (cs.colorFrames.lockedVersion < cs.colorFrames.committedVersion)

/-- Depth counterpart of `availColor`. -/
def availDepth (st : ServerState) (i : Nat) : Bool :=
  match st.cameras[i]? with
  | none => false
  | some cs =>
    !cs.hasSentDepthFrame &&
      decide (cs.depthFrames.lockedVersion < cs.depthFrames.committedVersion)

/-- Camera `i` has any unsent deliverable frame. -/
def availCam (st : ServerState) (i : Nat) : Bool :=
  availColor st i || availDepth st i

/-- Number of cameras whose color frame of the current meta-frame has not
been sent yet. -/
def numUnsentColor (st : ServerState) : Nat :=
  st.cameras.countP fun cs => !cs.hasSentColorFrame

/-- Number of cameras whose depth frame of the current meta-frame has not
been sent yet. -/
def numUnsentDepth (st : ServerState) : Nat :=
  st.cameras.countP fun cs => !cs.hasSentDepthFrame

/-- Events that do not connect a client with the identifier `k` (any
other connect — including one adding a misbehaving client — and every
other event is unrestricted).  Used to keep a tracked client identifiable
across a run; the clients connecting may still carry pending disconnect
requests or throwing sockets. -/
def evFreshCid (k : Nat) : Ev → Prop
  | .connect cid _ _ _ => cid ≠ k
  | _ => True

instance (k : Nat) (ev : Ev) : Decidable (evFreshCid k ev) := by
  unfold evFreshCid
  cases ev <;> infer_instance

/-! ## Concrete runs used by counterexamples and witnesses -/

/-- Two cameras with distinct codec header blobs. -/
def cexCams : List CameraInit :=
  [{ colorHeaderBytes := [1], depthHeaderBytes := [2] },
   { colorHeaderBytes := [3], depthHeaderBytes := [4] }]

/-- A schedule refuting fixed-index delivery order: one client connects;
camera 1 commits its color frame and the broadcaster scans (delivering
camera 1's color, the only frame available); then camera 0 commits and the
broadcaster scans again. -/
def cexEvsC1 : List Ev :=
  [.connect 7 [] .ok none,
   .commitColor 1 0 [11],
   .bstep,
   .commitColor 0 0 [12],
   .bstep]

/-- A well-behaved client. -/
def cexA : Client := { cid := 0, trace := [], incoming := [], writeBehavior := .ok }

/-- A client whose socket write throws a non-`runtime_error` exception. -/
def cexB : Client := { cid := 1, trace := [], incoming := [], writeBehavior := .throwSpurious }

/-- Another well-behaved client, listed after `cexB`. -/
def cexC : Client := { cid := 2, trace := [], incoming := [], writeBehavior := .ok }

/-- A single-camera server with both a color and a depth frame committed
and not yet delivered. -/
def cexStC9 : ServerState :=
  runFrom (initServer [{ colorHeaderBytes := [1], depthHeaderBytes := [2] }])
    [.commitColor 0 10 [5], .commitDepth 0 11 [6]]

/-- A client whose socket write throws `std::runtime_error`. -/
def cexRT : Client := { cid := 3, trace := [], incoming := [], writeBehavior := .throwRuntime }

/-- A client with a pending disconnect request (one u32, value 5). -/
def cexDis : Client := { cid := 4, trace := [], incoming := [5], writeBehavior := .ok }

/-- One camera with header blobs `[1]` and `[2]`. -/
def cexOneCam : List CameraInit := [{ colorHeaderBytes := [1], depthHeaderBytes := [2] }]

/-- Single-camera server at the start of meta-frame 0 with two connected
clients: first a client (id 6) that has already queued a disconnect
request — it will be removed during the first fan-out — and then a
well-behaved client (id 5) that stays for the whole meta-frame. -/
def cexStC2 : ServerState :=
  runFrom (initServer cexOneCam)
    [.connect 6 [9] .ok none, .connect 5 [] .ok none]

/-- The client of `cexStC2` as the acceptor constructed it. -/
def cexC2Client : Client :=
  { cid := 5, trace := initSnapshotTrace [([1], [2])], incoming := [], writeBehavior := .ok }

/-- A schedule completing meta-frame 0 of `cexStC2`: camera 0 commits a
color frame, the broadcaster delivers it, the depth frame follows. -/
def cexEvsC2 : List Ev :=
  [.commitColor 0 1 [3], .bstep, .commitDepth 0 2 [4], .bstep]

/-- Two-camera server with one client and unsent committed color frames
for both cameras: a scan pass must serve camera 0 first. -/
def cexStBoth : ServerState :=
  runFrom (initServer cexCams)
    [.connect 7 [] .ok none, .commitColor 0 0 [12], .commitColor 1 0 [11]]

/-- A client socket whose history is well-formed: the acceptor's
initialization snapshot for the given camera header view, followed only by
items the streaming thread writes. -/
def ClientTraceOK (hv0 : List (List Nat × List Nat)) (c : Client) : Prop :=
  ∃ rest : List WireItem, c.trace = initSnapshotTrace hv0 ++ rest
    ∧ ∀ it ∈ rest, it.isStreamItem = true

/-- While the streaming thread is alive, the client with identifier `k`
is still connected, well behaved, the only client with that identifier,
and has received — under meta-frame `m` — exactly the frames whose
`hasSent` flag is set, each exactly once.  Other clients are arbitrary:
they may carry pending disconnect requests or throwing sockets and may be
removed by the fan-outs. -/
def TrackedOK (m k : Nat) (st : ServerState) : Prop :=
  ∃ c, c ∈ st.clients ∧ c.cid = k ∧ goodClient c
    ∧ (∀ c' ∈ st.clients, c'.cid = k → c' = c)
    ∧ ∀ fid, frameCount m fid c.trace = (if sentFlag st fid = true then 1 else 0)

/-- The invariant the broadcaster maintains throughout one meta-frame `m`
(with `N` cameras, tracking the client with identifier `k`): the
meta-frame index is still `m`, the missing-frame counters agree with the
`hasSent` flags, a dead streaming thread (a rethrown non-`runtime_error`
exception) leaves at least one frame forever missing — so a run whose
counters reach zero never died — and while the thread is alive the
tracked client satisfies `TrackedOK`. -/
def MFInv (m N k : Nat) (st : ServerState) : Prop :=
  st.metaFrameIndex = m
  ∧ st.cameras.length = N
  ∧ st.numMissingColorFrames = numUnsentColor st
  ∧ st.numMissingDepthFrames = numUnsentDepth st
  ∧ (st.terminated = true → 0 < st.numMissingColorFrames + st.numMissingDepthFrames)
  ∧ (st.terminated = false → TrackedOK m k st)

/-! ## List helpers -/

theorem getElem?_append_cons {α : Type} (pre post : List α) (c : α) :
    (pre ++ c :: post)[pre.length]? = some c := by
  induction pre with
  | nil => simp
  | cons a l ih => simpa using ih

theorem set_append_cons {α : Type} (pre post : List α) (c x : α) :
    (pre ++ c :: post).set pre.length x = pre ++ x :: post := by
  induction pre with
  | nil => rfl
  | cons a l ih => simp [ih]

theorem eraseIdx_append_cons {α : Type} (pre post : List α) (c : α) :
    (pre ++ c :: post).eraseIdx pre.length = pre ++ post := by
  induction pre with
  | nil => rfl
  | cons a l ih => simp [ih]

/-! ## The fan-out loop coincides with left-to-right processing -/

theorem serveClient_served_eq (m fid : Nat) (blob : List Nat) (c x : Client)
    (h : serveClient m fid blob c = .served x) : x = pushFrame m fid blob c := by
  unfold serveClient at h
  cases hi : c.incoming with
  | cons r rest => rw [hi] at h; exact absurd h (by simp)
  | nil =>
    rw [hi] at h
    cases hw : c.writeBehavior <;> rw [hw] at h <;> simp_all

theorem serveClient_spurious_behavior (m fid : Nat) (blob : List Nat) (c : Client)
    (h : serveClient m fid blob c = .spuriousEsc) : c.writeBehavior = .throwSpurious := by
  unfold serveClient at h
  cases hi : c.incoming with
  | cons r rest => rw [hi] at h; exact absurd h (by simp)
  | nil =>
    rw [hi] at h
    cases hw : c.writeBehavior <;> rw [hw] at h <;> simp_all

theorem serveClient_good (m fid : Nat) (blob : List Nat) (c : Client)
    (h : goodClient c) : serveClient m fid blob c = .served (pushFrame m fid blob c) := by
  obtain ⟨hi, hw⟩ := h
  unfold serveClient
  rw [hi, hw]

theorem fanoutLoop_eq_processAll (m fid : Nat) (blob : List Nat) :
    ∀ (post pre : List Client) (fuel : Nat), post.length ≤ fuel →
      fanoutLoop m fid blob (pre ++ post) pre.length (pre.length + post.length) fuel
        = { clients := pre ++ (processAll m fid blob post).1, crashed := false,
            escaped := (processAll m fid blob post).2 } := by
  intro post
  induction post with
  | nil =>
    intro pre fuel _
    cases fuel with
    | zero => simp [fanoutLoop, processAll]
    | succ fuel => simp [fanoutLoop, processAll]
  | cons c rest ih =>
    intro pre fuel hfuel
    cases fuel with
    | zero => exact absurd hfuel (by simp)
    | succ fuel =>
      rw [fanoutLoop]
      simp only [List.length_cons]
      rw [if_pos (show pre.length < pre.length + (rest.length + 1) by omega)]
      rw [getElem?_append_cons]
      have hfuel' : rest.length ≤ fuel := by simpa using hfuel
      cases hs : serveClient m fid blob c with
      | disconnected r =>
        simp only [hs]
        rw [eraseIdx_append_cons]
        have harith : pre.length + (rest.length + 1) - 1 = pre.length + rest.length := by omega
        rw [harith, ih pre fuel hfuel']
        simp [processAll, hs]
      | served c' =>
        simp only [hs]
        rw [set_append_cons]
        have h1 : pre.length + 1 = (pre ++ [c']).length := by simp
        have h2 : pre.length + (rest.length + 1) = (pre ++ [c']).length + rest.length := by
          simp; omega
        have h3 : pre ++ c' :: rest = (pre ++ [c']) ++ rest := by simp
        rw [h1, h2, h3, ih (pre ++ [c']) fuel hfuel']
        simp [processAll, hs]
      | errRemoved =>
        simp only [hs]
        rw [eraseIdx_append_cons]
        have harith : pre.length + (rest.length + 1) - 1 = pre.length + rest.length := by omega
        rw [harith, ih pre fuel hfuel']
        simp [processAll, hs]
      | spuriousEsc =>
        simp only [hs]
        rw [eraseIdx_append_cons]
        simp [processAll, hs]

theorem fanoutLoop_run (m fid : Nat) (blob : List Nat) (clients : List Client) :
    fanoutLoop m fid blob clients 0 clients.length clients.length
      = { clients := (processAll m fid blob clients).1, crashed := false,
          escaped := (processAll m fid blob clients).2 } := by
  simpa using fanoutLoop_eq_processAll m fid blob clients [] clients.length le_rfl

theorem processAll_allGood (m fid : Nat) (blob : List Nat) :
    ∀ clients : List Client, (∀ c ∈ clients, goodClient c) →
      processAll m fid blob clients = (clients.map (pushFrame m fid blob), false) := by
  intro clients
  induction clients with
  | nil => intro _; rfl
  | cons c rest ih =>
    intro hall
    have hc := hall c (by simp)
    have hrest := ih fun c' hc' => hall c' (by simp [hc'])
    simp [processAll, serveClient_good m fid blob c hc, hrest]

theorem processAll_noSpurious (m fid : Nat) (blob : List Nat) :
    ∀ clients : List Client, (∀ c ∈ clients, c.writeBehavior ≠ .throwSpurious) →
      (processAll m fid blob clients).2 = false := by
  intro clients
  induction clients with
  | nil => intro _; rfl
  | cons c rest ih =>
    intro hall
    have hrest := ih fun c' hc' => hall c' (by simp [hc'])
    cases hs : serveClient m fid blob c with
    | disconnected r => simp [processAll, hs, hrest]
    | served c' => simp [processAll, hs, hrest]
    | errRemoved => simp [processAll, hs, hrest]
    | spuriousEsc =>
      exact absurd (serveClient_spurious_behavior m fid blob c hs) (hall c (by simp))

theorem processAll_mem_good (m fid : Nat) (blob : List Nat) :
    ∀ clients : List Client, ∀ c, c ∈ clients → goodClient c →
      (∀ c' ∈ clients, c'.writeBehavior ≠ .throwSpurious) →
      pushFrame m fid blob c ∈ (processAll m fid blob clients).1 := by
  intro clients
  induction clients with
  | nil => intro c hc; exact absurd hc (by simp)
  | cons a rest ih =>
    intro c hc hgood hall
    rcases List.mem_cons.mp hc with heq | hmem
    · subst heq
      simp [processAll, serveClient_good m fid blob c hgood]
    · have hrec := ih c hmem hgood fun c' hc' => hall c' (by simp [hc'])
      cases hs : serveClient m fid blob a with
      | disconnected r => simpa [processAll, hs] using hrec
      | served a' => simp [processAll, hs, hrec]
      | errRemoved => simpa [processAll, hs] using hrec
      | spuriousEsc =>
        exact absurd (serveClient_spurious_behavior m fid blob a hs) (hall a (by simp))

theorem processAll_mem_orig (m fid : Nat) (blob : List Nat) :
    ∀ clients : List Client, ∀ c', c' ∈ (processAll m fid blob clients).1 →
      ∃ c ∈ clients, c' = c ∨ c' = pushFrame m fid blob c := by
  intro clients
  induction clients with
  | nil => intro c' hc'; exact absurd hc' (by simp [processAll])
  | cons a rest ih =>
    intro c' hc'
    cases hs : serveClient m fid blob a with
    | disconnected r =>
      rw [processAll, hs] at hc'
      obtain ⟨c, hc, hor⟩ := ih c' hc'
      exact ⟨c, by simp [hc], hor⟩
    | served a' =>
      rw [processAll, hs] at hc'
      rcases List.mem_cons.mp hc' with heq | hmem
      · exact ⟨a, by simp, Or.inr (by rw [heq, serveClient_served_eq m fid blob a a' hs])⟩
      · obtain ⟨c, hc, hor⟩ := ih c' hmem
        exact ⟨c, by simp [hc], hor⟩
    | errRemoved =>
      rw [processAll, hs] at hc'
      obtain ⟨c, hc, hor⟩ := ih c' hc'
      exact ⟨c, by simp [hc], hor⟩
    | spuriousEsc =>
      rw [processAll, hs] at hc'
      exact ⟨c', by simp [hc'], Or.inl rfl⟩

/-! ## C6: per-kind frame indices -/

theorem colorIndexTrace_range' (l : List (Nat × List Nat)) :
    ∀ cs : CameraState, colorIndexTrace cs l = List.range' cs.colorFrameIndex l.length := by
  induction l with
  | nil => intro cs; rfl
  | cons p rest ih =>
    intro cs
    obtain ⟨ts, d⟩ := p
    simp [colorIndexTrace, colorStreamingCallback, postNewValue, ih, List.range'_succ]

theorem depthIndexTrace_range' (l : List (Nat × List Nat)) :
    ∀ cs : CameraState, depthIndexTrace cs l = List.range' cs.depthFrameIndex l.length := by
  induction l with
  | nil => intro cs; rfl
  | cons p rest ih =>
    intro cs
    obtain ⟨ts, d⟩ := p
    simp [depthIndexTrace, depthStreamingCallback, postNewValue, ih, List.range'_succ]

/-- C6.  For each camera and each kind separately, the sequence indices
stored in successively committed `CompressedFrame`s over any run of
streaming callbacks from a freshly constructed camera state form exactly
`0, 1, 2, …` — starting at 0, increasing by exactly 1 per committed frame,
hence strictly monotonically increasing per camera+kind. -/
theorem frame_indices_start_zero_strict_mono (ci : CameraInit)
    (lc ld : List (Nat × List Nat)) :
    colorIndexTrace (initCamera ci) lc = List.range lc.length
    ∧ depthIndexTrace (initCamera ci) ld = List.range ld.length := by
  constructor
  · rw [colorIndexTrace_range', List.range_eq_range']; rfl
  · rw [depthIndexTrace_range', List.range_eq_range']; rfl

/-! ## C8: constructor thread startup -/

theorem ctorScan_spec (bus : List Nat) :
    ∀ config : List Nat,
      ctorScan bus config
        = ((config.filter fun s => bus.contains s).length,
           config.filter fun s => !bus.contains s) := by
  intro config
  induction config with
  | nil => rfl
  | cons s rest ih =>
    by_cases h : s ∈ bus <;> simp [ctorScan, ih, List.filter_cons, h]

/-- C8.  At server construction the listening thread is started
unconditionally; the streaming thread is started iff at least one
configured camera was found on the USB bus (`numCameras` after the scan);
a configured serial with no matching device is logged and skipped —
construction completes, the found-camera count is exactly the number of
configured serials present on the bus, and the missing ones are exactly
the configured serials absent from the bus, in configuration order. -/
theorem ctor_thread_start (bus config : List Nat) :
    (kinectServerCtor bus config).listeningThreadStarted = true
    ∧ ((kinectServerCtor bus config).streamingThreadStarted = true
        ↔ 0 < (kinectServerCtor bus config).numCameras)
    ∧ (kinectServerCtor bus config).numCameras
        = (config.filter fun s => bus.contains s).length
    ∧ (kinectServerCtor bus config).missing
        = config.filter fun s => !bus.contains s := by
  refine ⟨rfl, ?_, ?_, ?_⟩ <;> simp [kinectServerCtor, ctorScan_spec]

/-! ## C4: the acceptor's header protocol -/

theorem headerItems_enumFrom (hv : List (List Nat × List Nat)) :
    ∀ base : Nat,
      headerItems base hv
        = ((hv.enumFrom base).map fun p =>
            [WireItem.headerBlob p.1 .color p.2.1,
             WireItem.headerBlob p.1 .depth p.2.2,
             WireItem.projBlob p.1 .colorProj,
             WireItem.projBlob p.1 .depthProj,
             WireItem.projBlob p.1 .extrinsicXform]).flatten := by
  induction hv with
  | nil => intro base; rfl
  | cons h rest ih =>
    intro base
    obtain ⟨ch, dh⟩ := h
    simp [headerItems, List.enumFrom, ih]

theorem initSnapshot_eq_spec (hv : List (List Nat × List Nat)) :
    initSnapshotTrace hv = specInitSnapshot hv := by
  simp [initSnapshotTrace, specInitSnapshot, List.enum, headerItems_enumFrom]

/-- C4.  On an accepted connection the listening thread writes exactly
the spec's initialization snapshot — u32 magic `0x12345678`, u32 camera
count, then per camera in index order: color codec header, depth codec
header, color projection, depth projection, extrinsic transform — and
only after the fully successful send (including the flush) appends the
client, with exactly that trace, to the client list; if the send fails at
any point `k`, the socket has received only a prefix, it is deleted, and
the client list is unchanged — no partial client is ever added. -/
theorem acceptor_header_protocol (hv : List (List Nat × List Nat))
    (clients : List Client) (cid : Nat) (incoming : List Nat) (wb : WriteBehavior) :
    ((listenerAcceptStep hv clients cid incoming wb none).clients
        = clients ++ [{ cid := cid, trace := specInitSnapshot hv,
                        incoming := incoming, writeBehavior := wb }]
      ∧ (listenerAcceptStep hv clients cid incoming wb none).socketTrace
          = specInitSnapshot hv
      ∧ (listenerAcceptStep hv clients cid incoming wb none).added = true
      ∧ (listenerAcceptStep hv clients cid incoming wb none).socketDeleted = false)
    ∧ ∀ k : Nat,
        (listenerAcceptStep hv clients cid incoming wb (some k)).clients = clients
        ∧ (listenerAcceptStep hv clients cid incoming wb (some k)).socketTrace
            = (specInitSnapshot hv).take k
        ∧ (listenerAcceptStep hv clients cid incoming wb (some k)).added = false
        ∧ (listenerAcceptStep hv clients cid incoming wb (some k)).socketDeleted = true := by
  refine ⟨⟨?_, ?_, rfl, rfl⟩, fun k => ⟨rfl, ?_, rfl, rfl⟩⟩ <;>
    simp [listenerAcceptStep, initSnapshot_eq_spec]

/-! ## C5: per-client fan-out protocol -/

/-- C5.  For every client and every frame fan-out: the broadcaster first
does the zero-timeout readability check; if readable it reads exactly one
u32 (the head of the pending input) and the client is deleted without the
frame being written to it; if not readable and the writes succeed, the
client's trace is extended by exactly the u32 meta-frame index, the u32
frame identifier and the compressed blob; a write that throws (either kind)
likewise removes and deletes the client.  The fan-out loop realizes these
outcomes left to right over the client list. -/
theorem fanout_per_client_protocol (m fid : Nat) (blob : List Nat) (c : Client) :
    (∀ r rest, c.incoming = r :: rest → serveClient m fid blob c = .disconnected r)
    ∧ (c.incoming = [] → c.writeBehavior = .ok →
        serveClient m fid blob c
          = .served { c with trace := c.trace ++ [.u32 m, .u32 fid, .frameBlob m fid blob] })
    ∧ (c.incoming = [] → c.writeBehavior = .throwRuntime →
        serveClient m fid blob c = .errRemoved)
    ∧ (c.incoming = [] → c.writeBehavior = .throwSpurious →
        serveClient m fid blob c = .spuriousEsc)
    ∧ ∀ clients : List Client,
        (fanoutLoop m fid blob clients 0 clients.length clients.length).clients
            = (processAll m fid blob clients).1
        ∧ (fanoutLoop m fid blob clients 0 clients.length clients.length).escaped
            = (processAll m fid blob clients).2 := by
  refine ⟨?_, ?_, ?_, ?_, ?_⟩
  · intro r rest h; simp [serveClient, h]
  · intro h1 h2; simp [serveClient, h1, h2, pushFrame]
  · intro h1 h2; simp [serveClient, h1, h2]
  · intro h1 h2; simp [serveClient, h1, h2]
  · intro clients; rw [fanoutLoop_run]; exact ⟨rfl, rfl⟩

/-- Witness for C5: a client with a pending disconnect request is removed
after one u32 read; a well-behaved client gets exactly the three writes. -/
theorem fanout_per_client_protocol_witness :
    serveClient 1 2 [3] cexDis = .disconnected 5
    ∧ serveClient 1 2 [3] cexA
        = .served { cexA with trace := [.u32 1, .u32 2, .frameBlob 1 2 [3]] } := by
  constructor
  · exact (fanout_per_client_protocol 1 2 [3] cexDis).1 5 [] rfl
  · exact (fanout_per_client_protocol 1 2 [3] cexA).2.1 rfl rfl

/-! ## C10: index handling during removal -/

/-- C10.  Removing a client mid-fan-out (disconnect request or write
exception) decrements both the loop index and the cached client count, so
the indexed loop never accesses the vector out of bounds (`crashed`
stays false), visits each client exactly once — it coincides with
left-to-right processing of the list — and when no client misbehaves it
extends every client's trace by exactly one frame message. -/
theorem fanout_index_safety (m fid : Nat) (blob : List Nat) (clients : List Client) :
    (fanoutLoop m fid blob clients 0 clients.length clients.length).crashed = false
    ∧ (fanoutLoop m fid blob clients 0 clients.length clients.length).clients
        = (processAll m fid blob clients).1
    ∧ ((∀ c ∈ clients, goodClient c) →
        (fanoutLoop m fid blob clients 0 clients.length clients.length).clients
          = clients.map (pushFrame m fid blob)) := by
  refine ⟨?_, ?_, ?_⟩
  · rw [fanoutLoop_run]
  · rw [fanoutLoop_run]
  · intro hall
    rw [fanoutLoop_run, processAll_allGood m fid blob clients hall]

/-- Witness for C10: a fan-out over a disconnecting client, a throwing
client and two good ones stays in bounds and serves each exactly once. -/
theorem fanout_index_safety_witness :
    (fanoutLoop 0 1 [9] [cexDis, cexA, cexRT, cexC] 0 4 4).crashed = false
    ∧ (fanoutLoop 0 1 [9] [cexDis, cexA, cexRT, cexC] 0 4 4).clients
        = (processAll 0 1 [9] [cexDis, cexA, cexRT, cexC]).1
    ∧ (fanoutLoop 0 1 [9] [cexA, cexC] 0 2 2).clients
        = [cexA, cexC].map (pushFrame 0 1 [9]) := by
  refine ⟨(fanout_index_safety 0 1 [9] [cexDis, cexA, cexRT, cexC]).1, ?_, ?_⟩
  · exact (fanout_index_safety 0 1 [9] [cexDis, cexA, cexRT, cexC]).2.1
  · exact (fanout_index_safety 0 1 [9] [cexA, cexC]).2.2 (by decide)

/-! ## C7: exception isolation in the fan-out -/

/-- Counterexample to C7 as stated: when serving the second of three
clients throws a non-`runtime_error` exception, the `catch(...)` clause
rethrows after deleting it; the broadcast loop terminates (`escaped`),
and the third client — still connected — never receives the frame, so it
is not true that "for every exception raised while serving client j, the
loop continues with the remaining clients and every other connected
client still receives the frame". -/
theorem spurious_exception_terminates_fanout :
    fanoutLoop 5 0 [9] [cexA, cexB, cexC] 0 3 3
      = { clients := [pushFrame 5 0 [9] cexA, cexC], crashed := false, escaped := true }
    ∧ frameCount 5 0 cexC.trace = 0 := by
  decide

/-- C7 as amended.  A `std::runtime_error` raised while serving client j
(the only exception TCP I/O failures produce) removes only that client:
the loop continues and every other well-behaved client still receives the
frame.  Only a non-`runtime_error` exception — the path by which deferred
thread cancellation propagates — escapes the loop. -/
theorem runtime_error_isolation (m fid : Nat) (blob : List Nat) (clients : List Client)
    (hns : ∀ c ∈ clients, c.writeBehavior ≠ .throwSpurious) :
    (fanoutLoop m fid blob clients 0 clients.length clients.length).escaped = false
    ∧ (fanoutLoop m fid blob clients 0 clients.length clients.length).crashed = false
    ∧ ∀ c ∈ clients, goodClient c →
        pushFrame m fid blob c ∈ (fanoutLoop m fid blob clients 0 clients.length clients.length).clients := by
  refine ⟨?_, ?_, ?_⟩
  · rw [fanoutLoop_run]
    exact processAll_noSpurious m fid blob clients hns
  · rw [fanoutLoop_run]
  · intro c hc hgood
    rw [fanoutLoop_run]
    exact processAll_mem_good m fid blob clients c hc hgood hns

/-- Witness for the amended C7: a runtime-error client between two good
ones is dropped while both good clients are served. -/
theorem runtime_error_isolation_witness :
    (∀ c ∈ [cexA, cexRT, cexC], c.writeBehavior ≠ .throwSpurious)
    ∧ (fanoutLoop 7 1 [2] [cexA, cexRT, cexC] 0 3 3).escaped = false
    ∧ pushFrame 7 1 [2] cexC ∈ (fanoutLoop 7 1 [2] [cexA, cexRT, cexC] 0 3 3).clients := by
  refine ⟨by decide, ?_, ?_⟩
  · exact (runtime_error_isolation 7 1 [2] [cexA, cexRT, cexC] (by decide)).1
  · exact (runtime_error_isolation 7 1 [2] [cexA, cexRT, cexC] (by decide)).2.2
      cexC (by decide) (by decide)

/-! ## Characterization of one camera iteration of the broadcaster scan -/

theorem colorCheck_cams_ne (st : ServerState) (i i' : Nat) (h : i ≠ i') :
    (colorCheck st i).2.cameras[i']? = st.cameras[i']? := by
  unfold colorCheck
  cases hget : st.cameras[i]? with
  | none => rfl
  | some cs =>
    cases hf : cs.hasSentColorFrame with
    | true => simp [hf]
    | false =>
      simp only [hf, Bool.false_eq_true, if_false]
      cases hl : lockNewValue cs.colorFrames with
      | none => rfl
      | some tb =>
        dsimp only
        split <;> simp [List.getElem?_set_ne h]

theorem depthCheck_cams_ne (st : ServerState) (i i' : Nat) (h : i ≠ i') :
    (depthCheck st i).2.cameras[i']? = st.cameras[i']? := by
  unfold depthCheck
  cases hget : st.cameras[i]? with
  | none => rfl
  | some cs =>
    cases hf : cs.hasSentDepthFrame with
    | true => simp [hf]
    | false =>
      simp only [hf, Bool.false_eq_true, if_false]
      cases hl : lockNewValue cs.depthFrames with
      | none => rfl
      | some tb =>
        dsimp only
        split <;> simp [List.getElem?_set_ne h]

theorem colorCheck_log (st : ServerState) (i : Nat) :
    ∃ items : List LogEntry, (colorCheck st i).2.log = st.log ++ items
      ∧ ∀ e ∈ items, e.cam = i := by
  unfold colorCheck
  cases hget : st.cameras[i]? with
  | none => exact ⟨[], by simp⟩
  | some cs =>
    cases hf : cs.hasSentColorFrame with
    | true => exact ⟨[], by simp [hf]⟩
    | false =>
      simp only [hf, Bool.false_eq_true, if_false]
      cases hl : lockNewValue cs.colorFrames with
      | none => exact ⟨[], by simp⟩
      | some tb =>
        dsimp only
        split <;>
          exact ⟨[{ metaIdx := st.metaFrameIndex, fid := 2 * i + 0, data := lockedData tb }],
            by simp,
            by intro e he
               rw [List.mem_singleton] at he
               subst he
               dsimp only [LogEntry.cam]
               omega⟩

theorem depthCheck_log (st : ServerState) (i : Nat) :
    ∃ items : List LogEntry, (depthCheck st i).2.log = st.log ++ items
      ∧ ∀ e ∈ items, e.cam = i := by
  unfold depthCheck
  cases hget : st.cameras[i]? with
  | none => exact ⟨[], by simp⟩
  | some cs =>
    cases hf : cs.hasSentDepthFrame with
    | true => exact ⟨[], by simp [hf]⟩
    | false =>
      simp only [hf, Bool.false_eq_true, if_false]
      cases hl : lockNewValue cs.depthFrames with
      | none => exact ⟨[], by simp⟩
      | some tb =>
        dsimp only
        split <;>
          exact ⟨[{ metaIdx := st.metaFrameIndex, fid := 2 * i + 1, data := lockedData tb }],
            by simp,
            by intro e he
               rw [List.mem_singleton] at he
               subst he
               dsimp only [LogEntry.cam]
               omega⟩

theorem colorCheck_not_found (st : ServerState) (i : Nat)
    (h : (colorCheck st i).1 = false) : (colorCheck st i).2 = st := by
  unfold colorCheck at h ⊢
  cases hget : st.cameras[i]? with
  | none => rfl
  | some cs =>
    rw [hget] at h
    dsimp only at h
    cases hf : cs.hasSentColorFrame with
    | true => simp [hf]
    | false =>
      simp only [hf, Bool.false_eq_true, if_false] at h ⊢
      cases hl : lockNewValue cs.colorFrames with
      | none => rfl
      | some tb =>
        rw [hl] at h
        dsimp only at h
        split at h <;> simp at h

theorem depthCheck_not_found (st : ServerState) (i : Nat)
    (h : (depthCheck st i).1 = false) : (depthCheck st i).2 = st := by
  unfold depthCheck at h ⊢
  cases hget : st.cameras[i]? with
  | none => rfl
  | some cs =>
    rw [hget] at h
    dsimp only at h
    cases hf : cs.hasSentDepthFrame with
    | true => simp [hf]
    | false =>
      simp only [hf, Bool.false_eq_true, if_false] at h ⊢
      cases hl : lockNewValue cs.depthFrames with
      | none => rfl
      | some tb =>
        rw [hl] at h
        dsimp only at h
        split at h <;> simp at h

theorem colorCheck_found_eq_avail (st : ServerState) (i : Nat) :
    (colorCheck st i).1 = availColor st i := by
  unfold colorCheck availColor
  cases hget : st.cameras[i]? with
  | none => rfl
  | some cs =>
    cases hf : cs.hasSentColorFrame with
    | true => simp [hf]
    | false =>
      simp only [hf, Bool.false_eq_true, if_false]
      unfold lockNewValue
      by_cases hl : cs.colorFrames.lockedVersion < cs.colorFrames.committedVersion
      · rw [if_pos hl]
        dsimp only
        split <;> simp [hl]
      · simp [hl]

theorem depthCheck_found_eq_avail (st : ServerState) (i : Nat) :
    (depthCheck st i).1 = availDepth st i := by
  unfold depthCheck availDepth
  cases hget : st.cameras[i]? with
  | none => rfl
  | some cs =>
    cases hf : cs.hasSentDepthFrame with
    | true => simp [hf]
    | false =>
      simp only [hf, Bool.false_eq_true, if_false]
      unfold lockNewValue
      by_cases hl : cs.depthFrames.lockedVersion < cs.depthFrames.committedVersion
      · rw [if_pos hl]
        dsimp only
        split <;> simp [hl]
      · simp [hl]

theorem colorCheck_found_log (st : ServerState) (i : Nat)
    (h : (colorCheck st i).1 = true) :
    ∃ e : LogEntry, e.cam = i ∧ (colorCheck st i).2.log = st.log ++ [e] := by
  unfold colorCheck at h ⊢
  cases hget : st.cameras[i]? with
  | none => rw [hget] at h; simp at h
  | some cs =>
    rw [hget] at h
    dsimp only at h
    cases hf : cs.hasSentColorFrame with
    | true => rw [hf] at h; simp at h
    | false =>
      simp only [hf, Bool.false_eq_true, if_false] at h ⊢
      cases hl : lockNewValue cs.colorFrames with
      | none => rw [hl] at h; simp at h
      | some tb =>
        dsimp only
        split <;>
          exact ⟨{ metaIdx := st.metaFrameIndex, fid := 2 * i + 0, data := lockedData tb },
            by dsimp only [LogEntry.cam]; omega, by simp⟩

theorem depthCheck_found_log (st : ServerState) (i : Nat)
    (h : (depthCheck st i).1 = true) :
    ∃ e : LogEntry, e.cam = i ∧ (depthCheck st i).2.log = st.log ++ [e] := by
  unfold depthCheck at h ⊢
  cases hget : st.cameras[i]? with
  | none => rw [hget] at h; simp at h
  | some cs =>
    rw [hget] at h
    dsimp only at h
    cases hf : cs.hasSentDepthFrame with
    | true => rw [hf] at h; simp at h
    | false =>
      simp only [hf, Bool.false_eq_true, if_false] at h ⊢
      cases hl : lockNewValue cs.depthFrames with
      | none => rw [hl] at h; simp at h
      | some tb =>
        dsimp only
        split <;>
          exact ⟨{ metaIdx := st.metaFrameIndex, fid := 2 * i + 1, data := lockedData tb },
            by dsimp only [LogEntry.cam]; omega, by simp⟩

theorem availCam_lt_length (st : ServerState) (i : Nat) (h : availCam st i = true) :
    i < st.cameras.length := by
  by_contra hlt
  unfold availCam availColor availDepth at h
  have hnone : st.cameras[i]? = none := List.getElem?_eq_none (by omega)
  rw [hnone] at h
  simp at h

/-! ## C9: one camera per scan pass -/

theorem scanAux_one_camera : ∀ (fuel : Nat) (st : ServerState) (i : Nat),
    ∃ k : Nat, (∀ i', i' ≠ k → (scanAux st i fuel).cameras[i']? = st.cameras[i']?)
      ∧ ∃ items : List LogEntry, (scanAux st i fuel).log = st.log ++ items
        ∧ ∀ e ∈ items, e.cam = k := by
  intro fuel
  induction fuel with
  | zero =>
    intro st i
    exact ⟨i, fun i' _ => rfl, [], by simp [scanAux], by simp⟩
  | succ fuel ih =>
    intro st i
    by_cases hi : i < st.cameras.length
    · rw [scanAux, if_pos hi]
      dsimp only
      obtain ⟨items1, hlog1, hcam1⟩ := colorCheck_log st i
      obtain ⟨items2, hlog2, hcam2⟩ := depthCheck_log (colorCheck st i).2 i
      by_cases ht1 : (colorCheck st i).2.terminated = true
      · rw [if_pos ht1]
        exact ⟨i, fun i' hne => colorCheck_cams_ne st i i' (Ne.symm hne),
          items1, hlog1, hcam1⟩
      · rw [if_neg ht1]
        by_cases ht2 : (depthCheck (colorCheck st i).2 i).2.terminated = true
        · rw [if_pos ht2]
          refine ⟨i, fun i' hne => ?_, items1 ++ items2, ?_, ?_⟩
          · rw [depthCheck_cams_ne _ i i' (Ne.symm hne),
              colorCheck_cams_ne st i i' (Ne.symm hne)]
          · rw [hlog2, hlog1, List.append_assoc]
          · intro e he
            rcases List.mem_append.mp he with h1 | h2
            · exact hcam1 e h1
            · exact hcam2 e h2
        · rw [if_neg ht2]
          by_cases hfound : ((colorCheck st i).1 || (depthCheck (colorCheck st i).2 i).1) = true
          · rw [if_pos hfound]
            refine ⟨i, fun i' hne => ?_, items1 ++ items2, ?_, ?_⟩
            · rw [depthCheck_cams_ne _ i i' (Ne.symm hne),
                colorCheck_cams_ne st i i' (Ne.symm hne)]
            · rw [hlog2, hlog1, List.append_assoc]
            · intro e he
              rcases List.mem_append.mp he with h1 | h2
              · exact hcam1 e h1
              · exact hcam2 e h2
          · rw [if_neg hfound]
            have hc : (colorCheck st i).1 = false := by
              cases hcv : (colorCheck st i).1
              · rfl
              · exact absurd (by rw [hcv]; rfl) hfound
            have hrc : (colorCheck st i).2 = st := colorCheck_not_found st i hc
            rw [hrc] at hfound ⊢
            have hd : (depthCheck st i).1 = false := by
              cases hdv : (depthCheck st i).1
              · rfl
              · exact absurd (by rw [hdv]; simp) hfound
            have hrd : (depthCheck st i).2 = st := depthCheck_not_found st i hd
            rw [hrd]
            exact ih st (i + 1)
    · rw [scanAux, if_neg hi]
      exact ⟨i, fun i' _ => rfl, [], by simp, by simp⟩

/-- C9.  Each scan pass of the broadcaster loop delivers frames of at most
one camera — the camera loop exits as soon as `foundFrame` is set, so after
delivering camera `k`'s frame the pass never touches another camera's
state, and every frame it fans out belongs to that one camera `k`; yet
within camera `k`'s iteration the depth check still runs after the color
check (it is not guarded by `foundFrame`), so a single pass can deliver
both the color and the depth frame of the same camera, as the concrete
single-camera pass in the second conjunct does (frame identifiers `0` and
`1` — color and depth of camera 0 — under meta-frame 0 in one pass). -/
theorem scan_single_camera_per_pass :
    (∀ st : ServerState, ∃ k : Nat,
      (∀ i', i' ≠ k → (scanPass st).cameras[i']? = st.cameras[i']?)
      ∧ ∃ items : List LogEntry, (scanPass st).log = st.log ++ items
          ∧ ∀ e ∈ items, e.cam = k)
    ∧ (scanPass cexStC9).log
        = [{ metaIdx := 0, fid := 0, data := [5] },
           { metaIdx := 0, fid := 1, data := [6] }] := by
  constructor
  · intro st
    exact scanAux_one_camera st.cameras.length st 0
  · decide

/-- Witness for C9: the universal part applied to the concrete state
`cexStC9`, whose pass delivers camera 0 and nothing else. -/
theorem scan_single_camera_per_pass_witness :
    ∃ k : Nat, (∀ i', i' ≠ k → (scanPass cexStC9).cameras[i']? = cexStC9.cameras[i']?)
      ∧ ∃ items : List LogEntry, (scanPass cexStC9).log = cexStC9.log ++ items
        ∧ ∀ e ∈ items, e.cam = k :=
  scan_single_camera_per_pass.1 cexStC9

/-! ## C1: delivery order across cameras -/

/-- Counterexample to C1 as stated: two cameras, one client connected from
the start.  Camera 1 commits its color frame first and the broadcaster
scans before camera 0 has committed anything, so within meta-frame 0 the
client receives camera 1's color frame (frame identifier `2 = 2*1+0`)
before camera 0's (frame identifier `0`): frames are delivered in
availability order across scan passes, not in fixed camera-index order
within the meta-frame. -/
theorem scan_order_counterexample :
    ((runFrom (initServer cexCams) cexEvsC1).clients.map
        fun c => c.trace.filter WireItem.isFrameBlob)
      = [[.frameBlob 0 2 [11], .frameBlob 0 0 [12]]] := by
  decide

theorem scanAux_least (i0 : Nat) : ∀ (fuel : Nat) (st : ServerState) (i : Nat),
    st.terminated = false → i ≤ i0 → availCam st i0 = true →
    (∀ i', i ≤ i' → i' < i0 → availCam st i' = false) →
    st.cameras.length ≤ fuel + i →
    ∃ items : List LogEntry, items ≠ []
      ∧ (scanAux st i fuel).log = st.log ++ items
      ∧ ∀ e ∈ items, e.cam = i0 := by
  intro fuel
  induction fuel with
  | zero =>
    intro st i hterm hle havail hmin hfuel
    exfalso
    have hlen := availCam_lt_length st i0 havail
    omega
  | succ fuel ih =>
    intro st i hterm hle havail hmin hfuel
    have hlen := availCam_lt_length st i0 havail
    have hi : i < st.cameras.length := by omega
    rw [scanAux, if_pos hi]
    dsimp only
    rcases Nat.lt_or_ge i i0 with hlt | hge
    · -- below the least available camera both checks fail and the scan advances
      have hboth : availCam st i = false := hmin i le_rfl hlt
      have hac : availColor st i = false := by
        unfold availCam at hboth
        exact (Bool.or_eq_false_iff.mp hboth).1
      have had : availDepth st i = false := by
        unfold availCam at hboth
        exact (Bool.or_eq_false_iff.mp hboth).2
      have hcfound : (colorCheck st i).1 = false := by
        rw [colorCheck_found_eq_avail]; exact hac
      have hrc : (colorCheck st i).2 = st := colorCheck_not_found st i hcfound
      rw [hrc]
      have hdfound : (depthCheck st i).1 = false := by
        rw [depthCheck_found_eq_avail]; exact had
      have hrd : (depthCheck st i).2 = st := depthCheck_not_found st i hdfound
      rw [hrd, hterm]
      simp only [Bool.false_eq_true, if_false, hcfound, hdfound, Bool.or_false]
      exact ih st (i + 1) hterm (by omega) havail
        (fun i' h1 h2 => hmin i' (by omega) h2) (by omega)
    · -- the scan has reached the least available camera
      have hii : i = i0 := by omega
      subst hii
      cases hac : availColor st i with
      | true =>
        have hcfound : (colorCheck st i).1 = true := by
          rw [colorCheck_found_eq_avail]; exact hac
        obtain ⟨e1, hcam1, hlog1⟩ := colorCheck_found_log st i hcfound
        obtain ⟨items2, hlog2, hcam2⟩ := depthCheck_log (colorCheck st i).2 i
        by_cases ht1 : (colorCheck st i).2.terminated = true
        · rw [if_pos ht1]
          exact ⟨[e1], by simp, hlog1, by simp [hcam1]⟩
        · rw [if_neg ht1]
          have hgoal : ∃ items : List LogEntry, items ≠ []
              ∧ (depthCheck (colorCheck st i).2 i).2.log = st.log ++ items
              ∧ ∀ e ∈ items, e.cam = i := by
            refine ⟨e1 :: items2, by simp, ?_, ?_⟩
            · rw [hlog2, hlog1]
              simp
            · intro e he
              rcases List.mem_cons.mp he with h1 | h2
              · rw [h1]; exact hcam1
              · exact hcam2 e h2
          by_cases ht2 : (depthCheck (colorCheck st i).2 i).2.terminated = true
          · rw [if_pos ht2]; exact hgoal
          · rw [if_neg ht2, if_pos (by rw [hcfound]; rfl)]
            exact hgoal
      | false =>
        have had : availDepth st i = true := by
          unfold availCam at havail
          rw [hac] at havail
          simpa using havail
        have hcfound : (colorCheck st i).1 = false := by
          rw [colorCheck_found_eq_avail]; exact hac
        have hrc : (colorCheck st i).2 = st := colorCheck_not_found st i hcfound
        rw [hrc, hterm]
        simp only [Bool.false_eq_true, if_false]
        have hdfound : (depthCheck st i).1 = true := by
          rw [depthCheck_found_eq_avail]; exact had
        obtain ⟨e1, hcam1, hlog1⟩ := depthCheck_found_log st i hdfound
        by_cases ht2 : (depthCheck st i).2.terminated = true
        · rw [if_pos ht2]
          exact ⟨[e1], by simp, hlog1, by simp [hcam1]⟩
        · rw [if_neg ht2, if_pos (by rw [hcfound, hdfound]; rfl)]
          exact ⟨[e1], by simp, hlog1, by simp [hcam1]⟩

/-- C1 as amended.  Within each scan pass the cameras are examined in
fixed index order, so a pass delivers frames only of the lowest-indexed
camera that has an unsent committed frame available; in particular when
cameras 0 and 1 both have frames available at the start of a pass, camera
0's frames are written first.  But across passes frames are delivered in
availability order: if camera 1's color frame is committed and scanned
while camera 0 has nothing available, camera 1's frame is written before
camera 0's within that meta-frame (see the counterexample). -/
theorem scan_serves_least_available (st : ServerState) (i0 : Nat)
    (hterm : st.terminated = false)
    (havail : availCam st i0 = true)
    (hmin : ∀ i', i' < i0 → availCam st i' = false) :
    ∃ items : List LogEntry, items ≠ []
      ∧ (scanPass st).log = st.log ++ items
      ∧ ∀ e ∈ items, e.cam = i0 :=
  scanAux_least i0 st.cameras.length st 0 hterm (Nat.zero_le i0) havail
    (fun i' _ h2 => hmin i' h2) (by omega)

/-- Witness for the amended C1: with color frames of both cameras 0 and 1
available, the pass serves camera 0 only. -/
theorem scan_serves_least_available_witness :
    availCam cexStBoth 0 = true
    ∧ ∃ items : List LogEntry, items ≠ []
        ∧ (scanPass cexStBoth).log = cexStBoth.log ++ items
        ∧ ∀ e ∈ items, e.cam = 0 := by
  refine ⟨by decide, scan_serves_least_available cexStBoth 0 (by decide) (by decide) ?_⟩
  intro i' h
  exact absurd h (Nat.not_lt_zero i')

/-! ## More list helpers -/

theorem mem_of_get? {α : Type} : ∀ (l : List α) (i : Nat) (x : α), l[i]? = some x → x ∈ l := by
  intro l
  induction l with
  | nil => intro i x h; simp at h
  | cons a t ih =>
    intro i x h
    cases i with
    | zero =>
      simp at h
      simp [h]
    | succ n =>
      simp at h
      exact List.mem_cons_of_mem a (ih n x h)

theorem get?_set_self {α : Type} (l : List α) (i : Nat) (x : α) (h : i < l.length) :
    (l.set i x)[i]? = some x := by
  simp [List.getElem?_set, h]

theorem map_set_eq {α β : Type} (f : α → β) :
    ∀ (l : List α) (i : Nat) (x y : α), l[i]? = some y → f x = f y →
      (l.set i x).map f = l.map f := by
  intro l
  induction l with
  | nil => intro i x y h _; simp
  | cons a t ih =>
    intro i x y h hf
    cases i with
    | zero =>
      simp at h
      simp [List.set, hf, h]
    | succ n =>
      simp at h
      simp [List.set, ih n x y h hf]

theorem countP_set {α : Type} (p : α → Bool) :
    ∀ (l : List α) (i : Nat) (x y : α), l[i]? = some y →
      (l.set i x).countP p + (if p y then 1 else 0)
        = l.countP p + (if p x then 1 else 0) := by
  intro l
  induction l with
  | nil => intro i x y h; simp at h
  | cons a t ih =>
    intro i x y h
    cases i with
    | zero =>
      simp at h
      subst h
      simp only [List.set, List.countP_cons]
      omega
    | succ n =>
      simp at h
      have hrec := ih n x y h
      simp only [List.set, List.countP_cons]
      omega

/-! ## C3: codec headers precede frames on every client socket -/

theorem headerView_colorCheck (st : ServerState) (i : Nat) :
    headerView (colorCheck st i).2.cameras = headerView st.cameras := by
  unfold colorCheck
  cases hget : st.cameras[i]? with
  | none => rfl
  | some cs =>
    cases hf : cs.hasSentColorFrame with
    | true => simp [hf]
    | false =>
      simp only [hf, Bool.false_eq_true, if_false]
      cases hl : lockNewValue cs.colorFrames with
      | none => rfl
      | some tb =>
        dsimp only
        split <;>
          exact map_set_eq _ st.cameras i _ cs hget rfl

theorem headerView_depthCheck (st : ServerState) (i : Nat) :
    headerView (depthCheck st i).2.cameras = headerView st.cameras := by
  unfold depthCheck
  cases hget : st.cameras[i]? with
  | none => rfl
  | some cs =>
    cases hf : cs.hasSentDepthFrame with
    | true => simp [hf]
    | false =>
      simp only [hf, Bool.false_eq_true, if_false]
      cases hl : lockNewValue cs.depthFrames with
      | none => rfl
      | some tb =>
        dsimp only
        split <;>
          exact map_set_eq _ st.cameras i _ cs hget rfl

theorem headerView_scanAux : ∀ (fuel : Nat) (st : ServerState) (i : Nat),
    headerView (scanAux st i fuel).cameras = headerView st.cameras := by
  intro fuel
  induction fuel with
  | zero => intro st i; rfl
  | succ fuel ih =>
    intro st i
    by_cases hi : i < st.cameras.length
    · rw [scanAux, if_pos hi]
      dsimp only
      by_cases ht1 : (colorCheck st i).2.terminated = true
      · rw [if_pos ht1]
        exact headerView_colorCheck st i
      · rw [if_neg ht1]
        by_cases ht2 : (depthCheck (colorCheck st i).2 i).2.terminated = true
        · rw [if_pos ht2]
          rw [headerView_depthCheck, headerView_colorCheck]
        · rw [if_neg ht2]
          by_cases hfound : ((colorCheck st i).1 || (depthCheck (colorCheck st i).2 i).1) = true
          · rw [if_pos hfound]
            rw [headerView_depthCheck, headerView_colorCheck]
          · rw [if_neg hfound]
            rw [ih, headerView_depthCheck, headerView_colorCheck]
    · rw [scanAux, if_neg hi]

theorem headerView_step (st : ServerState) (ev : Ev) :
    headerView (step st ev).cameras = headerView st.cameras := by
  cases ev with
  | commitColor i ts data =>
    unfold step
    dsimp only
    cases hget : st.cameras[i]? with
    | none => rfl
    | some cs => exact map_set_eq _ st.cameras i _ cs hget rfl
  | commitDepth i ts data =>
    unfold step
    dsimp only
    cases hget : st.cameras[i]? with
    | none => rfl
    | some cs => exact map_set_eq _ st.cameras i _ cs hget rfl
  | bstep =>
    unfold step broadcasterStep
    dsimp only
    by_cases ht : st.terminated = true
    · rw [if_pos ht]
    · rw [if_neg ht]
      by_cases hc : 0 < st.numMissingDepthFrames ∨ 0 < st.numMissingColorFrames
      · rw [if_pos hc]
        exact headerView_scanAux st.cameras.length st 0
      · rw [if_neg hc]
        simp [headerView, List.map_map]
  | connect cid incoming wb failAt => rfl

theorem traceOK_pushFrame (hv0 : List (List Nat × List Nat)) (c : Client)
    (m fid : Nat) (blob : List Nat) (h : ClientTraceOK hv0 c) :
    ClientTraceOK hv0 (pushFrame m fid blob c) := by
  obtain ⟨rest, htr, hs⟩ := h
  refine ⟨rest ++ [.u32 m, .u32 fid, .frameBlob m fid blob], ?_, ?_⟩
  · simp [pushFrame, htr]
  · intro it hit
    rcases List.mem_append.mp hit with h1 | h2
    · exact hs it h1
    · simp only [List.mem_cons, List.not_mem_nil, or_false] at h2
      rcases h2 with rfl | rfl | rfl <;> rfl

theorem traceOK_processAll (hv0 : List (List Nat × List Nat)) (m fid : Nat)
    (blob : List Nat) (clients : List Client)
    (h : ∀ c ∈ clients, ClientTraceOK hv0 c) :
    ∀ c' ∈ (processAll m fid blob clients).1, ClientTraceOK hv0 c' := by
  intro c' hc'
  obtain ⟨c, hc, hor⟩ := processAll_mem_orig m fid blob clients c' hc'
  rcases hor with h1 | h1
  · rw [h1]; exact h c hc
  · rw [h1]; exact traceOK_pushFrame hv0 c m fid blob (h c hc)

theorem traceOK_colorCheck (hv0 : List (List Nat × List Nat)) (st : ServerState) (i : Nat)
    (h : ∀ c ∈ st.clients, ClientTraceOK hv0 c) :
    ∀ c' ∈ (colorCheck st i).2.clients, ClientTraceOK hv0 c' := by
  unfold colorCheck
  cases hget : st.cameras[i]? with
  | none => exact h
  | some cs =>
    cases hf : cs.hasSentColorFrame with
    | true => simpa [hf] using h
    | false =>
      simp only [hf, Bool.false_eq_true, if_false]
      cases hl : lockNewValue cs.colorFrames with
      | none => exact h
      | some tb =>
        dsimp only
        rw [fanoutLoop_run]
        split <;>
          exact fun c' hc' => traceOK_processAll hv0 _ _ _ st.clients h c' hc'

theorem traceOK_depthCheck (hv0 : List (List Nat × List Nat)) (st : ServerState) (i : Nat)
    (h : ∀ c ∈ st.clients, ClientTraceOK hv0 c) :
    ∀ c' ∈ (depthCheck st i).2.clients, ClientTraceOK hv0 c' := by
  unfold depthCheck
  cases hget : st.cameras[i]? with
  | none => exact h
  | some cs =>
    cases hf : cs.hasSentDepthFrame with
    | true => simpa [hf] using h
    | false =>
      simp only [hf, Bool.false_eq_true, if_false]
      cases hl : lockNewValue cs.depthFrames with
      | none => exact h
      | some tb =>
        dsimp only
        rw [fanoutLoop_run]
        split <;>
          exact fun c' hc' => traceOK_processAll hv0 _ _ _ st.clients h c' hc'

theorem traceOK_scanAux (hv0 : List (List Nat × List Nat)) :
    ∀ (fuel : Nat) (st : ServerState) (i : Nat),
      (∀ c ∈ st.clients, ClientTraceOK hv0 c) →
      ∀ c' ∈ (scanAux st i fuel).clients, ClientTraceOK hv0 c' := by
  intro fuel
  induction fuel with
  | zero => intro st i h; exact h
  | succ fuel ih =>
    intro st i h
    have h1 := traceOK_colorCheck hv0 st i h
    have h2 := traceOK_depthCheck hv0 (colorCheck st i).2 i h1
    by_cases hi : i < st.cameras.length
    · rw [scanAux, if_pos hi]
      dsimp only
      by_cases ht1 : (colorCheck st i).2.terminated = true
      · rw [if_pos ht1]; exact h1
      · rw [if_neg ht1]
        by_cases ht2 : (depthCheck (colorCheck st i).2 i).2.terminated = true
        · rw [if_pos ht2]; exact h2
        · rw [if_neg ht2]
          by_cases hfound : ((colorCheck st i).1 || (depthCheck (colorCheck st i).2 i).1) = true
          · rw [if_pos hfound]; exact h2
          · rw [if_neg hfound]
            exact ih _ (i + 1) h2
    · rw [scanAux, if_neg hi]; exact h

theorem traceInv_step (hv0 : List (List Nat × List Nat)) (st : ServerState) (ev : Ev)
    (hview : headerView st.cameras = hv0)
    (hcl : ∀ c ∈ st.clients, ClientTraceOK hv0 c) :
    headerView (step st ev).cameras = hv0
      ∧ ∀ c ∈ (step st ev).clients, ClientTraceOK hv0 c := by
  refine ⟨by rw [headerView_step, hview], ?_⟩
  cases ev with
  | commitColor i ts data =>
    unfold step
    dsimp only
    cases hget : st.cameras[i]? with
    | none => exact hcl
    | some cs => exact hcl
  | commitDepth i ts data =>
    unfold step
    dsimp only
    cases hget : st.cameras[i]? with
    | none => exact hcl
    | some cs => exact hcl
  | bstep =>
    unfold step broadcasterStep
    dsimp only
    by_cases ht : st.terminated = true
    · rw [if_pos ht]; exact hcl
    · rw [if_neg ht]
      by_cases hc : 0 < st.numMissingDepthFrames ∨ 0 < st.numMissingColorFrames
      · rw [if_pos hc]
        exact traceOK_scanAux hv0 st.cameras.length st 0 hcl
      · rw [if_neg hc]; exact hcl
  | connect cid incoming wb failAt =>
    unfold step listenerAcceptStep
    dsimp only
    cases failAt with
    | none =>
      intro c hc
      dsimp only at hc
      rcases List.mem_append.mp hc with h1 | h2
      · exact hcl c h1
      · rw [List.mem_singleton] at h2
        subst h2
        exact ⟨[], by simp [hview], by simp⟩
    | some k => exact hcl

theorem traceInv_runFrom (hv0 : List (List Nat × List Nat)) :
    ∀ (evs : List Ev) (st : ServerState),
      headerView st.cameras = hv0 →
      (∀ c ∈ st.clients, ClientTraceOK hv0 c) →
      headerView (runFrom st evs).cameras = hv0
        ∧ ∀ c ∈ (runFrom st evs).clients, ClientTraceOK hv0 c := by
  intro evs
  induction evs with
  | nil => intro st hview hcl; exact ⟨hview, hcl⟩
  | cons ev rest ih =>
    intro st hview hcl
    obtain ⟨hview1, hcl1⟩ := traceInv_step hv0 st ev hview hcl
    exact ih (step st ev) hview1 hcl1

theorem countP_headerItems (i : Nat) (k : StreamKind) :
    ∀ (hv : List (List Nat × List Nat)) (base : Nat),
      (headerItems base hv).countP (WireItem.isHeaderOf i k)
        = if base ≤ i ∧ i < base + hv.length then 1 else 0 := by
  intro hv
  induction hv with
  | nil =>
    intro base
    simp only [headerItems, List.countP_nil, List.length_nil, Nat.add_zero]
    rw [if_neg (by omega)]
  | cons h rest ih =>
    intro base
    obtain ⟨ch, dh⟩ := h
    rw [headerItems]
    simp only [List.countP_cons, ih (base + 1), WireItem.isHeaderOf, List.length_cons]
    by_cases hbi : base = i
    · subst hbi
      rw [if_neg (show ¬(base + 1 ≤ base ∧ base < base + 1 + rest.length) by omega),
          if_pos (show base ≤ base ∧ base < base + (rest.length + 1) by omega)]
      cases k <;> simp
    · have hne : (base == i) = false := by simp [hbi]
      have hcond : (base + 1 ≤ i ∧ i < base + 1 + rest.length)
          ↔ (base ≤ i ∧ i < base + (rest.length + 1)) := by omega
      rw [if_congr hcond rfl rfl]
      simp [hne]

theorem headerItems_no_frameBlob :
    ∀ (hv : List (List Nat × List Nat)) (base : Nat),
      ∀ it ∈ headerItems base hv, it.isFrameBlob = false := by
  intro hv
  induction hv with
  | nil => intro base it hit; simp [headerItems] at hit
  | cons h rest ih =>
    intro base it hit
    obtain ⟨ch, dh⟩ := h
    rw [headerItems] at hit
    simp only [List.mem_cons] at hit
    rcases hit with rfl | rfl | rfl | rfl | rfl | h1
    · rfl
    · rfl
    · rfl
    · rfl
    · rfl
    · exact ih (base + 1) it h1

theorem initSnapshot_no_frameBlob (hv : List (List Nat × List Nat)) :
    ∀ it ∈ initSnapshotTrace hv, it.isFrameBlob = false := by
  intro it hit
  rw [initSnapshotTrace] at hit
  simp only [List.mem_cons] at hit
  rcases hit with rfl | rfl | h1
  · rfl
  · rfl
  · exact headerItems_no_frameBlob hv 0 it h1

theorem initSnapshot_headerCount (hv : List (List Nat × List Nat)) (i : Nat)
    (k : StreamKind) (hi : i < hv.length) :
    (initSnapshotTrace hv).countP (WireItem.isHeaderOf i k) = 1 := by
  rw [initSnapshotTrace]
  simp only [List.countP_cons, countP_headerItems, WireItem.isHeaderOf]
  simp [hi]

theorem streamItem_not_header (it : WireItem) (h : it.isStreamItem = true)
    (i : Nat) (k : StreamKind) : WireItem.isHeaderOf i k it = false := by
  cases it <;> simp_all [WireItem.isStreamItem, WireItem.isHeaderOf]

theorem frameCount_initSnapshot (m fid : Nat) (hv : List (List Nat × List Nat)) :
    frameCount m fid (initSnapshotTrace hv) = 0 := by
  unfold frameCount
  rw [List.countP_eq_zero]
  intro it hit
  have hnf := initSnapshot_no_frameBlob hv it hit
  cases it <;> simp_all [WireItem.isFrameBlob]

/-- C3.  For every camera `i` and every client present in any reachable
state, the client's socket trace splits into the acceptor's
initialization prefix and a streaming suffix: the prefix carries camera
`i`'s color and depth codec header blobs (captured once in the
`CameraState` constructor, before any frame is compressed) exactly once
each, the suffix carries no header blob at all, and no compressed-frame
blob of any camera — in particular none of camera `i` — precedes the
prefix's end.  So each codec header reaches each client socket exactly
once and strictly before any frame bytes of that camera. -/
theorem headers_once_before_frames (cis : List CameraInit) (evs : List Ev)
    (c : Client) (i : Nat)
    (hc : c ∈ (runFrom (initServer cis) evs).clients)
    (hi : i < cis.length) :
    ∃ pre rest : List WireItem, c.trace = pre ++ rest
      ∧ pre.countP (WireItem.isHeaderOf i .color) = 1
      ∧ pre.countP (WireItem.isHeaderOf i .depth) = 1
      ∧ rest.countP (WireItem.isHeaderOf i .color) = 0
      ∧ rest.countP (WireItem.isHeaderOf i .depth) = 0
      ∧ ∀ it ∈ pre, it.isFrameBlob = false := by
  have hinv := traceInv_runFrom (headerView (initServer cis).cameras) evs (initServer cis)
    rfl (by intro cl hcl; simp [initServer] at hcl)
  obtain ⟨rest, htr, hstream⟩ := hinv.2 c hc
  have hlen : (headerView (initServer cis).cameras).length = cis.length := by
    simp [headerView, initServer]
  refine ⟨initSnapshotTrace (headerView (initServer cis).cameras), rest, htr,
    ?_, ?_, ?_, ?_, ?_⟩
  · exact initSnapshot_headerCount _ i .color (by rw [hlen]; exact hi)
  · exact initSnapshot_headerCount _ i .depth (by rw [hlen]; exact hi)
  · rw [List.countP_eq_zero]
    intro it hit
    simp [streamItem_not_header it (hstream it hit) i .color]
  · rw [List.countP_eq_zero]
    intro it hit
    simp [streamItem_not_header it (hstream it hit) i .depth]
  · exact initSnapshot_no_frameBlob _

/-- Witness for C3: a client connected to a one-camera server satisfies
the split. -/
theorem headers_once_before_frames_witness :
    (cexC2Client ∈ (runFrom (initServer cexOneCam) [.connect 5 [] .ok none]).clients)
    ∧ 0 < cexOneCam.length
    ∧ ∃ pre rest : List WireItem, cexC2Client.trace = pre ++ rest
      ∧ pre.countP (WireItem.isHeaderOf 0 .color) = 1
      ∧ pre.countP (WireItem.isHeaderOf 0 .depth) = 1
      ∧ rest.countP (WireItem.isHeaderOf 0 .color) = 0
      ∧ rest.countP (WireItem.isHeaderOf 0 .depth) = 0
      ∧ ∀ it ∈ pre, it.isFrameBlob = false := by
  refine ⟨by decide, by decide, ?_⟩
  exact headers_once_before_frames cexOneCam [.connect 5 [] .ok none] cexC2Client 0
    (by decide) (by decide)

/-! ## C2: exactly-once delivery within a meta-frame -/

theorem goodClient_pushFrame (m fid : Nat) (blob : List Nat) (c : Client)
    (h : goodClient c) : goodClient (pushFrame m fid blob c) := h

theorem fanoutLoop_allGood (m fid : Nat) (blob : List Nat) (clients : List Client)
    (hall : ∀ c ∈ clients, goodClient c) :
    fanoutLoop m fid blob clients 0 clients.length clients.length
      = { clients := clients.map (pushFrame m fid blob), crashed := false,
          escaped := false } := by
  rw [fanoutLoop_run, processAll_allGood m fid blob clients hall]

theorem frameCount_push (m fid m2 fid2 : Nat) (blob : List Nat) (c : Client) :
    frameCount m fid (pushFrame m2 fid2 blob c).trace
      = frameCount m fid c.trace + (if m2 = m ∧ fid2 = fid then 1 else 0) := by
  unfold pushFrame frameCount
  dsimp only
  rw [List.countP_append]
  congr 1
  simp only [List.countP_cons, List.countP_nil]
  by_cases h1 : m2 = m
  · by_cases h2 : fid2 = fid
    · subst h1; subst h2; simp
    · simp [h1, h2]
  · simp [h1]

theorem processAll_good_served (m fid : Nat) (blob : List Nat) :
    ∀ clients : List Client, (processAll m fid blob clients).2 = false →
      ∀ c, c ∈ clients → goodClient c →
      pushFrame m fid blob c ∈ (processAll m fid blob clients).1 := by
  intro clients
  induction clients with
  | nil => intro _ c hc; exact absurd hc (by simp)
  | cons a rest ih =>
    intro hesc c hc hgood
    cases hs : serveClient m fid blob a with
    | served a' =>
      rw [processAll, hs] at hesc ⊢
      dsimp only at hesc ⊢
      rcases List.mem_cons.mp hc with heq | hmem
      · subst heq
        rw [serveClient_served_eq m fid blob c a' hs]
        exact List.mem_cons_self _ _
      · exact List.mem_cons_of_mem _ (ih hesc c hmem hgood)
    | disconnected r0 =>
      rw [processAll, hs] at hesc ⊢
      rcases List.mem_cons.mp hc with heq | hmem
      · subst heq
        have hserve := serveClient_good m fid blob c hgood
        rw [hserve] at hs
        exact absurd hs (by simp)
      · exact ih hesc c hmem hgood
    | errRemoved =>
      rw [processAll, hs] at hesc ⊢
      rcases List.mem_cons.mp hc with heq | hmem
      · subst heq
        have hserve := serveClient_good m fid blob c hgood
        rw [hserve] at hs
        exact absurd hs (by simp)
      · exact ih hesc c hmem hgood
    | spuriousEsc =>
      rw [processAll, hs] at hesc
      exact absurd hesc (by simp)

theorem processAll_mem_pushed (m fid : Nat) (blob : List Nat) :
    ∀ clients : List Client, (processAll m fid blob clients).2 = false →
      ∀ c'', c'' ∈ (processAll m fid blob clients).1 →
      ∃ d ∈ clients, c'' = pushFrame m fid blob d := by
  intro clients
  induction clients with
  | nil =>
    intro _ c'' hc''
    rw [processAll] at hc''
    exact absurd hc'' (by simp)
  | cons a rest ih =>
    intro hesc c'' hc''
    cases hs : serveClient m fid blob a with
    | served a' =>
      rw [processAll, hs] at hesc hc''
      dsimp only at hesc hc''
      rcases List.mem_cons.mp hc'' with heq | hmem
      · exact ⟨a, by simp, by rw [heq, serveClient_served_eq m fid blob a a' hs]⟩
      · obtain ⟨d, hd, he⟩ := ih hesc c'' hmem
        exact ⟨d, by simp [hd], he⟩
    | disconnected r0 =>
      rw [processAll, hs] at hesc hc''
      obtain ⟨d, hd, he⟩ := ih hesc c'' hc''
      exact ⟨d, by simp [hd], he⟩
    | errRemoved =>
      rw [processAll, hs] at hesc hc''
      obtain ⟨d, hd, he⟩ := ih hesc c'' hc''
      exact ⟨d, by simp [hd], he⟩
    | spuriousEsc =>
      rw [processAll, hs] at hesc
      exact absurd hesc (by simp)

theorem MFInv_colorCheck (m N k : Nat) (st : ServerState) (i : Nat)
    (inv : MFInv m N k st) (hterm : st.terminated = false) :
    MFInv m N k (colorCheck st i).2 := by
  obtain ⟨hm, hN, hcntC, hcntD, hposT, htr⟩ := inv
  unfold colorCheck
  cases hget : st.cameras[i]? with
  | none => exact ⟨hm, hN, hcntC, hcntD, hposT, htr⟩
  | some cs =>
    cases hf : cs.hasSentColorFrame with
    | true =>
      simp only [hf, if_pos]
      exact ⟨hm, hN, hcntC, hcntD, hposT, htr⟩
    | false =>
      simp only [hf, Bool.false_eq_true, if_false]
      cases hl : lockNewValue cs.colorFrames with
      | none => exact ⟨hm, hN, hcntC, hcntD, hposT, htr⟩
      | some tb =>
        dsimp only
        rw [fanoutLoop_run]
        dsimp only
        have hilen : i < st.cameras.length := by
          by_contra hx
          rw [List.getElem?_eq_none (by omega)] at hget
          exact absurd hget (by simp)
        have hmem : cs ∈ st.cameras := mem_of_get? st.cameras i cs hget
        have hpos : 0 < st.cameras.countP (fun cs => !cs.hasSentColorFrame) :=
          List.countP_pos_iff.mpr ⟨cs, hmem, by rw [hf]; rfl⟩
        by_cases hesc :
            (processAll st.metaFrameIndex (2 * i + 0) (lockedData tb) st.clients).2 = true
        · rw [if_pos hesc]
          refine ⟨hm, ?_, ?_, ?_, ?_, ?_⟩
          · simp [List.length_set, hN]
          · have hkey := countP_set (fun cs => !cs.hasSentColorFrame) st.cameras i
              { cs with colorFrames := tb } cs hget
            dsimp only at hkey
            rw [hf] at hkey
            unfold numUnsentColor at hcntC ⊢
            dsimp only
            omega
          · have hkey := countP_set (fun cs => !cs.hasSentDepthFrame) st.cameras i
              { cs with colorFrames := tb } cs hget
            dsimp only at hkey
            rw [hf] at hkey
            unfold numUnsentDepth at hcntD ⊢
            dsimp only
            omega
          · intro _
            dsimp only
            unfold numUnsentColor at hcntC
            omega
          · intro h
            simp at h
        · rw [if_neg hesc]
          have hesc2 :
              (processAll st.metaFrameIndex (2 * i + 0) (lockedData tb) st.clients).2 = false := by
            cases hv : (processAll st.metaFrameIndex (2 * i + 0) (lockedData tb) st.clients).2
            · rfl
            · exact absurd hv hesc
          refine ⟨hm, ?_, ?_, ?_, ?_, ?_⟩
          · simp [List.length_set, hN]
          · have hkey := countP_set (fun cs => !cs.hasSentColorFrame) st.cameras i
              { cs with colorFrames := tb, hasSentColorFrame := true } cs hget
            dsimp only at hkey
            rw [hf] at hkey
            simp at hkey
            unfold numUnsentColor at hcntC ⊢
            dsimp only
            omega
          · have hkey := countP_set (fun cs => !cs.hasSentDepthFrame) st.cameras i
              { cs with colorFrames := tb, hasSentColorFrame := true } cs hget
            dsimp only at hkey
            unfold numUnsentDepth at hcntD ⊢
            dsimp only
            omega
          · intro h
            simp [hterm] at h
          · intro _
            obtain ⟨c, hmemc, hcid, hgoodc, huniqc, hcount⟩ := htr hterm
            refine ⟨pushFrame st.metaFrameIndex (2 * i + 0) (lockedData tb) c,
              ?_, hcid, hgoodc, ?_, ?_⟩
            · exact processAll_good_served st.metaFrameIndex (2 * i + 0) (lockedData tb)
                st.clients hesc2 c hmemc hgoodc
            · intro c2 hmem2 hcid2
              obtain ⟨d, hd, he⟩ := processAll_mem_pushed st.metaFrameIndex (2 * i + 0)
                (lockedData tb) st.clients hesc2 c2 hmem2
              have hdc : d = c := huniqc d hd (by rw [he] at hcid2; exact hcid2)
              rw [he, hdc]
            · intro fid
              rw [frameCount_push, hcount fid, hm]
              by_cases hfid2 : fid / 2 = i
              · have hcases : fid = 2 * i ∨ fid = 2 * i + 1 := by omega
                rcases hcases with rfl | rfl
                · have hdiv : 2 * i / 2 = i := by omega
                  unfold sentFlag
                  dsimp only
                  rw [hdiv, hget, get?_set_self _ _ _ hilen]
                  have hmod : 2 * i % 2 = 0 := by omega
                  simp [hmod, hf]
                · have hdiv : (2 * i + 1) / 2 = i := by omega
                  unfold sentFlag
                  dsimp only
                  rw [hdiv, hget, get?_set_self _ _ _ hilen]
                  have hmod : (2 * i + 1) % 2 = 1 := by omega
                  have hne : ¬(2 * i + 0 = 2 * i + 1) := by omega
                  simp [hmod, hne]
              · unfold sentFlag
                dsimp only
                rw [List.getElem?_set_ne (show i ≠ fid / 2 by omega)]
                have hne : ¬(m = m ∧ 2 * i + 0 = fid) := by
                  rintro ⟨_, h2⟩
                  omega
                simp [hne]
                omega

theorem MFInv_depthCheck (m N k : Nat) (st : ServerState) (i : Nat)
    (inv : MFInv m N k st) (hterm : st.terminated = false) :
    MFInv m N k (depthCheck st i).2 := by
  obtain ⟨hm, hN, hcntC, hcntD, hposT, htr⟩ := inv
  unfold depthCheck
  cases hget : st.cameras[i]? with
  | none => exact ⟨hm, hN, hcntC, hcntD, hposT, htr⟩
  | some cs =>
    cases hf : cs.hasSentDepthFrame with
    | true =>
      simp only [hf, if_pos]
      exact ⟨hm, hN, hcntC, hcntD, hposT, htr⟩
    | false =>
      simp only [hf, Bool.false_eq_true, if_false]
      cases hl : lockNewValue cs.depthFrames with
      | none => exact ⟨hm, hN, hcntC, hcntD, hposT, htr⟩
      | some tb =>
        dsimp only
        rw [fanoutLoop_run]
        dsimp only
        have hilen : i < st.cameras.length := by
          by_contra hx
          rw [List.getElem?_eq_none (by omega)] at hget
          exact absurd hget (by simp)
        have hmem : cs ∈ st.cameras := mem_of_get? st.cameras i cs hget
        have hpos : 0 < st.cameras.countP (fun cs => !cs.hasSentDepthFrame) :=
          List.countP_pos_iff.mpr ⟨cs, hmem, by rw [hf]; rfl⟩
        by_cases hesc :
            (processAll st.metaFrameIndex (2 * i + 1) (lockedData tb) st.clients).2 = true
        · rw [if_pos hesc]
          refine ⟨hm, ?_, ?_, ?_, ?_, ?_⟩
          · simp [List.length_set, hN]
          · have hkey := countP_set (fun cs => !cs.hasSentColorFrame) st.cameras i
              { cs with depthFrames := tb } cs hget
            dsimp only at hkey
            rw [hf] at hkey
            unfold numUnsentColor at hcntC ⊢
            dsimp only
            omega
          · have hkey := countP_set (fun cs => !cs.hasSentDepthFrame) st.cameras i
              { cs with depthFrames := tb } cs hget
            dsimp only at hkey
            rw [hf] at hkey
            unfold numUnsentDepth at hcntD ⊢
            dsimp only
            omega
          · intro _
            dsimp only
            unfold numUnsentDepth at hcntD
            omega
          · intro h
            simp at h
        · rw [if_neg hesc]
          have hesc2 :
              (processAll st.metaFrameIndex (2 * i + 1) (lockedData tb) st.clients).2 = false := by
            cases hv : (processAll st.metaFrameIndex (2 * i + 1) (lockedData tb) st.clients).2
            · rfl
            · exact absurd hv hesc
          refine ⟨hm, ?_, ?_, ?_, ?_, ?_⟩
          · simp [List.length_set, hN]
          · have hkey := countP_set (fun cs => !cs.hasSentColorFrame) st.cameras i
              { cs with depthFrames := tb, hasSentDepthFrame := true } cs hget
            dsimp only at hkey
            unfold numUnsentColor at hcntC ⊢
            dsimp only
            omega
          · have hkey := countP_set (fun cs => !cs.hasSentDepthFrame) st.cameras i
              { cs with depthFrames := tb, hasSentDepthFrame := true } cs hget
            dsimp only at hkey
            rw [hf] at hkey
            simp at hkey
            unfold numUnsentDepth at hcntD ⊢
            dsimp only
            omega
          · intro h
            simp [hterm] at h
          · intro _
            obtain ⟨c, hmemc, hcid, hgoodc, huniqc, hcount⟩ := htr hterm
            refine ⟨pushFrame st.metaFrameIndex (2 * i + 1) (lockedData tb) c,
              ?_, hcid, hgoodc, ?_, ?_⟩
            · exact processAll_good_served st.metaFrameIndex (2 * i + 1) (lockedData tb)
                st.clients hesc2 c hmemc hgoodc
            · intro c2 hmem2 hcid2
              obtain ⟨d, hd, he⟩ := processAll_mem_pushed st.metaFrameIndex (2 * i + 1)
                (lockedData tb) st.clients hesc2 c2 hmem2
              have hdc : d = c := huniqc d hd (by rw [he] at hcid2; exact hcid2)
              rw [he, hdc]
            · intro fid
              rw [frameCount_push, hcount fid, hm]
              by_cases hfid2 : fid / 2 = i
              · have hcases : fid = 2 * i ∨ fid = 2 * i + 1 := by omega
                rcases hcases with rfl | rfl
                · have hdiv : 2 * i / 2 = i := by omega
                  unfold sentFlag
                  dsimp only
                  rw [hdiv, hget, get?_set_self _ _ _ hilen]
                  have hmod : 2 * i % 2 = 0 := by omega
                  have hne : ¬(2 * i + 1 = 2 * i) := by omega
                  simp [hmod, hne]
                · have hdiv : (2 * i + 1) / 2 = i := by omega
                  unfold sentFlag
                  dsimp only
                  rw [hdiv, hget, get?_set_self _ _ _ hilen]
                  have hmod : (2 * i + 1) % 2 = 1 := by omega
                  simp [hmod, hf]
              · unfold sentFlag
                dsimp only
                rw [List.getElem?_set_ne (show i ≠ fid / 2 by omega)]
                have hne : ¬(m = m ∧ 2 * i + 1 = fid) := by
                  rintro ⟨_, h2⟩
                  omega
                simp [hne]
                omega

theorem MFInv_scanAux (m N k : Nat) : ∀ (fuel : Nat) (st : ServerState) (i : Nat),
    MFInv m N k st → st.terminated = false → MFInv m N k (scanAux st i fuel) := by
  intro fuel
  induction fuel with
  | zero => intro st i inv _; exact inv
  | succ fuel ih =>
    intro st i inv hterm
    have inv1 := MFInv_colorCheck m N k st i inv hterm
    by_cases hi : i < st.cameras.length
    · rw [scanAux, if_pos hi]
      dsimp only
      by_cases ht1 : (colorCheck st i).2.terminated = true
      · rw [if_pos ht1]
        exact inv1
      · rw [if_neg ht1]
        have ht1f : (colorCheck st i).2.terminated = false := by
          cases hv : (colorCheck st i).2.terminated
          · rfl
          · exact absurd hv ht1
        have inv2 := MFInv_depthCheck m N k (colorCheck st i).2 i inv1 ht1f
        by_cases ht2 : (depthCheck (colorCheck st i).2 i).2.terminated = true
        · rw [if_pos ht2]
          exact inv2
        · rw [if_neg ht2]
          have ht2f : (depthCheck (colorCheck st i).2 i).2.terminated = false := by
            cases hv : (depthCheck (colorCheck st i).2 i).2.terminated
            · rfl
            · exact absurd hv ht2
          by_cases hfound : ((colorCheck st i).1 || (depthCheck (colorCheck st i).2 i).1) = true
          · rw [if_pos hfound]
            exact inv2
          · rw [if_neg hfound]
            exact ih _ (i + 1) inv2 ht2f
    · rw [scanAux, if_neg hi]
      exact inv

theorem colorCheck_mfi (st : ServerState) (i : Nat) :
    (colorCheck st i).2.metaFrameIndex = st.metaFrameIndex := by
  unfold colorCheck
  cases hget : st.cameras[i]? with
  | none => rfl
  | some cs =>
    cases hf : cs.hasSentColorFrame with
    | true => simp [hf]
    | false =>
      simp only [hf, Bool.false_eq_true, if_false]
      cases hl : lockNewValue cs.colorFrames with
      | none => rfl
      | some tb =>
        dsimp only
        split <;> rfl

theorem depthCheck_mfi (st : ServerState) (i : Nat) :
    (depthCheck st i).2.metaFrameIndex = st.metaFrameIndex := by
  unfold depthCheck
  cases hget : st.cameras[i]? with
  | none => rfl
  | some cs =>
    cases hf : cs.hasSentDepthFrame with
    | true => simp [hf]
    | false =>
      simp only [hf, Bool.false_eq_true, if_false]
      cases hl : lockNewValue cs.depthFrames with
      | none => rfl
      | some tb =>
        dsimp only
        split <;> rfl

theorem scanAux_mfi : ∀ (fuel : Nat) (st : ServerState) (i : Nat),
    (scanAux st i fuel).metaFrameIndex = st.metaFrameIndex := by
  intro fuel
  induction fuel with
  | zero => intro st i; rfl
  | succ fuel ih =>
    intro st i
    by_cases hi : i < st.cameras.length
    · rw [scanAux, if_pos hi]
      dsimp only
      by_cases ht1 : (colorCheck st i).2.terminated = true
      · rw [if_pos ht1]
        exact colorCheck_mfi st i
      · rw [if_neg ht1]
        by_cases ht2 : (depthCheck (colorCheck st i).2 i).2.terminated = true
        · rw [if_pos ht2]
          rw [depthCheck_mfi, colorCheck_mfi]
        · rw [if_neg ht2]
          by_cases hfound : ((colorCheck st i).1 || (depthCheck (colorCheck st i).2 i).1) = true
          · rw [if_pos hfound]
            rw [depthCheck_mfi, colorCheck_mfi]
          · rw [if_neg hfound]
            rw [ih, depthCheck_mfi, colorCheck_mfi]
    · rw [scanAux, if_neg hi]

theorem step_mfi_le (st : ServerState) (ev : Ev) :
    st.metaFrameIndex ≤ (step st ev).metaFrameIndex := by
  cases ev with
  | commitColor i ts data =>
    unfold step
    dsimp only
    cases hget : st.cameras[i]? with
    | none => exact le_rfl
    | some cs => exact le_rfl
  | commitDepth i ts data =>
    unfold step
    dsimp only
    cases hget : st.cameras[i]? with
    | none => exact le_rfl
    | some cs => exact le_rfl
  | bstep =>
    unfold step broadcasterStep
    dsimp only
    by_cases ht : st.terminated = true
    · rw [if_pos ht]
    · rw [if_neg ht]
      by_cases hc : 0 < st.numMissingDepthFrames ∨ 0 < st.numMissingColorFrames
      · rw [if_pos hc]
        unfold scanPass
        rw [scanAux_mfi]
      · rw [if_neg hc]
        exact Nat.le_succ _
  | connect cid incoming wb failAt => exact le_rfl

theorem runFrom_mfi_le : ∀ (evs : List Ev) (st : ServerState),
    st.metaFrameIndex ≤ (runFrom st evs).metaFrameIndex := by
  intro evs
  induction evs with
  | nil => intro st; exact le_rfl
  | cons ev rest ih =>
    intro st
    rw [runFrom]
    exact le_trans (step_mfi_le st ev) (ih (step st ev))

theorem MFInv_step (m N k : Nat) (st : ServerState) (ev : Ev)
    (inv : MFInv m N k st) (hgev : evFreshCid k ev)
    (hmfi : (step st ev).metaFrameIndex = m) : MFInv m N k (step st ev) := by
  obtain ⟨hm, hN, hcntC, hcntD, hposT, htr⟩ := inv
  cases ev with
  | commitColor i ts data =>
    unfold step
    dsimp only
    cases hget : st.cameras[i]? with
    | none => exact ⟨hm, hN, hcntC, hcntD, hposT, htr⟩
    | some cs =>
      have hilen : i < st.cameras.length := by
        by_contra hx
        rw [List.getElem?_eq_none (by omega)] at hget
        exact absurd hget (by simp)
      refine ⟨hm, ?_, ?_, ?_, ?_, ?_⟩
      · simp [List.length_set, hN]
      · have hkey := countP_set (fun cs => !cs.hasSentColorFrame) st.cameras i
          (colorStreamingCallback cs ts data) cs hget
        dsimp only at hkey
        rw [show (colorStreamingCallback cs ts data).hasSentColorFrame
          = cs.hasSentColorFrame from rfl] at hkey
        unfold numUnsentColor at hcntC ⊢
        dsimp only
        omega
      · have hkey := countP_set (fun cs => !cs.hasSentDepthFrame) st.cameras i
          (colorStreamingCallback cs ts data) cs hget
        dsimp only at hkey
        rw [show (colorStreamingCallback cs ts data).hasSentDepthFrame
          = cs.hasSentDepthFrame from rfl] at hkey
        unfold numUnsentDepth at hcntD ⊢
        dsimp only
        omega
      · intro h
        dsimp only at h
        exact hposT h
      · intro h
        dsimp only at h
        obtain ⟨c, hmemc, hcid, hgoodc, huniqc, hcount⟩ := htr h
        refine ⟨c, hmemc, hcid, hgoodc, huniqc, ?_⟩
        intro fid
        have hsf : sentFlag
            { st with cameras := st.cameras.set i (colorStreamingCallback cs ts data) } fid
            = sentFlag st fid := by
          unfold sentFlag
          dsimp only
          by_cases hd : fid / 2 = i
          · rw [hd, get?_set_self _ _ _ hilen, hget]
            dsimp only
            by_cases hpar : (fid % 2 == 0) = true
            · rw [if_pos hpar, if_pos hpar]
              rfl
            · rw [if_neg hpar, if_neg hpar]
              rfl
          · rw [List.getElem?_set_ne (by omega)]
        rw [hsf]
        exact hcount fid
  | commitDepth i ts data =>
    unfold step
    dsimp only
    cases hget : st.cameras[i]? with
    | none => exact ⟨hm, hN, hcntC, hcntD, hposT, htr⟩
    | some cs =>
      have hilen : i < st.cameras.length := by
        by_contra hx
        rw [List.getElem?_eq_none (by omega)] at hget
        exact absurd hget (by simp)
      refine ⟨hm, ?_, ?_, ?_, ?_, ?_⟩
      · simp [List.length_set, hN]
      · have hkey := countP_set (fun cs => !cs.hasSentColorFrame) st.cameras i
          (depthStreamingCallback cs ts data) cs hget
        dsimp only at hkey
        rw [show (depthStreamingCallback cs ts data).hasSentColorFrame
          = cs.hasSentColorFrame from rfl] at hkey
        unfold numUnsentColor at hcntC ⊢
        dsimp only
        omega
      · have hkey := countP_set (fun cs => !cs.hasSentDepthFrame) st.cameras i
          (depthStreamingCallback cs ts data) cs hget
        dsimp only at hkey
        rw [show (depthStreamingCallback cs ts data).hasSentDepthFrame
          = cs.hasSentDepthFrame from rfl] at hkey
        unfold numUnsentDepth at hcntD ⊢
        dsimp only
        omega
      · intro h
        dsimp only at h
        exact hposT h
      · intro h
        dsimp only at h
        obtain ⟨c, hmemc, hcid, hgoodc, huniqc, hcount⟩ := htr h
        refine ⟨c, hmemc, hcid, hgoodc, huniqc, ?_⟩
        intro fid
        have hsf : sentFlag
            { st with cameras := st.cameras.set i (depthStreamingCallback cs ts data) } fid
            = sentFlag st fid := by
          unfold sentFlag
          dsimp only
          by_cases hd : fid / 2 = i
          · rw [hd, get?_set_self _ _ _ hilen, hget]
            dsimp only
            by_cases hpar : (fid % 2 == 0) = true
            · rw [if_pos hpar, if_pos hpar]
              rfl
            · rw [if_neg hpar, if_neg hpar]
              rfl
          · rw [List.getElem?_set_ne (by omega)]
        rw [hsf]
        exact hcount fid
  | bstep =>
    unfold step broadcasterStep
    dsimp only
    by_cases hb : st.terminated = true
    · rw [if_pos hb]
      exact ⟨hm, hN, hcntC, hcntD, hposT, htr⟩
    · rw [if_neg hb]
      have hbf : st.terminated = false := by
        cases hv : st.terminated
        · rfl
        · exact absurd hv hb
      by_cases hcond : 0 < st.numMissingDepthFrames ∨ 0 < st.numMissingColorFrames
      · rw [if_pos hcond]
        exact MFInv_scanAux m N k st.cameras.length st 0
          ⟨hm, hN, hcntC, hcntD, hposT, htr⟩ hbf
      · exfalso
        unfold step broadcasterStep at hmfi
        dsimp only at hmfi
        rw [if_neg hb, if_neg hcond] at hmfi
        dsimp only at hmfi
        omega
  | connect cid incoming wb failAt =>
    unfold step listenerAcceptStep
    dsimp only
    cases failAt with
    | none =>
      refine ⟨hm, hN, hcntC, hcntD, hposT, ?_⟩
      intro h
      dsimp only at h
      obtain ⟨c, hmemc, hcid, hgoodc, huniqc, hcount⟩ := htr h
      refine ⟨c, ?_, hcid, hgoodc, ?_, hcount⟩
      · dsimp only
        exact List.mem_append_left _ hmemc
      · intro c2 hmem2 hcid2
        dsimp only at hmem2
        rcases List.mem_append.mp hmem2 with h1 | h2
        · exact huniqc c2 h1 hcid2
        · rw [List.mem_singleton] at h2
          exfalso
          rw [h2] at hcid2
          exact hgev hcid2
    | some kf => exact ⟨hm, hN, hcntC, hcntD, hposT, htr⟩

theorem MFInv_runFrom (m N k : Nat) : ∀ (evs : List Ev) (st : ServerState),
    MFInv m N k st → (∀ ev ∈ evs, evFreshCid k ev) →
    (runFrom st evs).metaFrameIndex = m → MFInv m N k (runFrom st evs) := by
  intro evs
  induction evs with
  | nil => intro st inv _ _; exact inv
  | cons ev rest ih =>
    intro st inv hevs hend
    rw [runFrom] at hend ⊢
    have h1 : (step st ev).metaFrameIndex = m := by
      have hle1 := step_mfi_le st ev
      have hle2 := runFrom_mfi_le rest (step st ev)
      have hm0 := inv.1
      omega
    have inv1 := MFInv_step m N k st ev inv (hevs ev (by simp)) h1
    exact ih (step st ev) inv1 (fun e he => hevs e (by simp [he])) hend

/-- C2.  Starting at the beginning of a meta-frame (all `hasSent` flags
clear, both missing-frame counters equal to the camera count, streaming
thread alive) with a connected client `c` — well-behaved, its identifier
unique, no frame of this meta-frame received yet — run any schedule of
commits, broadcaster iterations and connections of arbitrary new clients
(no identifier clash) that keeps the meta-frame index unchanged and
drives both missing-frame counters to zero (i.e. the meta-frame
completes).  Other clients may disconnect, throw on write, or be removed
mid-meta-frame; since a rethrown non-`runtime_error` exception kills the
streaming thread while a frame is still missing, a run whose counters
reach zero kept the thread alive.  Then client `c` is still connected —
present exactly once in the final client list — and has received each of
the `2N` (camera, kind) frames of this meta-frame exactly once and no
frame of this meta-frame with any other identifier; all of them were
written while `metaFrameIndex` was still `m`, i.e. before the rollover
increments it and resets the flags and counters. -/
theorem metaframe_exactly_once (st0 : ServerState) (evs : List Ev) (c : Client)
    (hterm : st0.terminated = false)
    (hflags : ∀ cs ∈ st0.cameras, cs.hasSentColorFrame = false
      ∧ cs.hasSentDepthFrame = false)
    (hcntC : st0.numMissingColorFrames = st0.cameras.length)
    (hcntD : st0.numMissingDepthFrames = st0.cameras.length)
    (hmem : c ∈ st0.clients)
    (hgoodc : goodClient c)
    (huniq : ∀ c2 ∈ st0.clients, c2.cid = c.cid → c2 = c)
    (hfresh : ∀ fid, frameCount st0.metaFrameIndex fid c.trace = 0)
    (hevs : ∀ ev ∈ evs, evFreshCid c.cid ev)
    (hend : (runFrom st0 evs).metaFrameIndex = st0.metaFrameIndex)
    (hdoneC : (runFrom st0 evs).numMissingColorFrames = 0)
    (hdoneD : (runFrom st0 evs).numMissingDepthFrames = 0) :
    ∃ c1, c1 ∈ (runFrom st0 evs).clients ∧ c1.cid = c.cid
      ∧ (∀ c2 ∈ (runFrom st0 evs).clients, c2.cid = c.cid → c2 = c1)
      ∧ (∀ fid, fid < 2 * st0.cameras.length →
          frameCount st0.metaFrameIndex fid c1.trace = 1)
      ∧ (∀ fid, 2 * st0.cameras.length ≤ fid →
          frameCount st0.metaFrameIndex fid c1.trace = 0) := by
  have hinv0 : MFInv st0.metaFrameIndex st0.cameras.length c.cid st0 := by
    refine ⟨rfl, rfl, ?_, ?_, ?_, ?_⟩
    · unfold numUnsentColor
      have hall : st0.cameras.countP (fun cs => !cs.hasSentColorFrame)
          = st0.cameras.length :=
        List.countP_eq_length.mpr fun cs hmem => by simp [(hflags cs hmem).1]
      omega
    · unfold numUnsentDepth
      have hall : st0.cameras.countP (fun cs => !cs.hasSentDepthFrame)
          = st0.cameras.length :=
        List.countP_eq_length.mpr fun cs hmem => by simp [(hflags cs hmem).2]
      omega
    · intro h
      rw [hterm] at h
      exact absurd h (by simp)
    · intro _
      refine ⟨c, hmem, rfl, hgoodc, huniq, ?_⟩
      intro fid
      have hsf : sentFlag st0 fid = false := by
        unfold sentFlag
        cases hget : st0.cameras[fid / 2]? with
        | none => rfl
        | some cs =>
          have hfl := hflags cs (mem_of_get? _ _ _ hget)
          by_cases hpar : (fid % 2 == 0) = true <;> simp [hpar, hfl.1, hfl.2]
      rw [hsf, hfresh fid]
      simp
  have hfin := MFInv_runFrom st0.metaFrameIndex st0.cameras.length c.cid evs st0
    hinv0 hevs hend
  obtain ⟨hm1, hN1, hc1, hd1, hpos1, htr1⟩ := hfin
  have htermfin : (runFrom st0 evs).terminated = false := by
    cases hv : (runFrom st0 evs).terminated
    · rfl
    · have := hpos1 hv
      omega
  obtain ⟨c1, hmem1, hcid1, hgood1, huniq1, hcount1⟩ := htr1 htermfin
  have hzC : (runFrom st0 evs).cameras.countP (fun cs => !cs.hasSentColorFrame) = 0 := by
    unfold numUnsentColor at hc1
    omega
  have hzD : (runFrom st0 evs).cameras.countP (fun cs => !cs.hasSentDepthFrame) = 0 := by
    unfold numUnsentDepth at hd1
    omega
  have hallC : ∀ cs ∈ (runFrom st0 evs).cameras, cs.hasSentColorFrame = true := by
    intro cs hmem
    have := List.countP_eq_zero.mp hzC cs hmem
    simpa using this
  have hallD : ∀ cs ∈ (runFrom st0 evs).cameras, cs.hasSentDepthFrame = true := by
    intro cs hmem
    have := List.countP_eq_zero.mp hzD cs hmem
    simpa using this
  refine ⟨c1, hmem1, hcid1, huniq1, ?_, ?_⟩
  · intro fid hfid
    rw [hcount1 fid]
    have hlt : fid / 2 < (runFrom st0 evs).cameras.length := by
      rw [hN1]
      omega
    have hsf : sentFlag (runFrom st0 evs) fid = true := by
      unfold sentFlag
      rw [List.getElem?_eq_getElem hlt]
      have hmem := List.getElem_mem hlt
      by_cases hpar : (fid % 2 == 0) = true <;>
        simp [hpar, hallC _ hmem, hallD _ hmem]
    rw [hsf]
    simp
  · intro fid hfid
    rw [hcount1 fid]
    have hsf : sentFlag (runFrom st0 evs) fid = false := by
      unfold sentFlag
      rw [List.getElem?_eq_none (by rw [hN1]; omega)]
    rw [hsf]
    simp

/-- Witness for C2: a one-camera server with two connected clients, one of
which (id 6) has a pending disconnect request and is removed during the
first fan-out; the schedule commits a color frame, the broadcaster
delivers it, the depth frame follows; the surviving tracked client (id 5)
has exactly one frame of each identifier `0` and `1` under meta-frame 0,
and the disconnected bystander is gone from the final client list. -/
theorem metaframe_exactly_once_witness :
    (∀ ev ∈ cexEvsC2, evFreshCid cexC2Client.cid ev)
    ∧ (runFrom cexStC2 cexEvsC2).numMissingColorFrames = 0
    ∧ (∀ c2 ∈ (runFrom cexStC2 cexEvsC2).clients, c2.cid ≠ 6)
    ∧ ∃ c1, c1 ∈ (runFrom cexStC2 cexEvsC2).clients ∧ c1.cid = cexC2Client.cid
      ∧ (∀ c2 ∈ (runFrom cexStC2 cexEvsC2).clients, c2.cid = cexC2Client.cid → c2 = c1)
      ∧ (∀ fid, fid < 2 * cexStC2.cameras.length →
          frameCount cexStC2.metaFrameIndex fid c1.trace = 1)
      ∧ (∀ fid, 2 * cexStC2.cameras.length ≤ fid →
          frameCount cexStC2.metaFrameIndex fid c1.trace = 0) := by
  refine ⟨by decide, by decide, by decide, ?_⟩
  exact metaframe_exactly_once cexStC2 cexEvsC2 cexC2Client
    (by decide) (by decide) (by decide) (by decide) (by decide) (by decide) (by decide)
    (fun fid => frameCount_initSnapshot cexStC2.metaFrameIndex fid [([1], [2])])
    (by decide) (by decide) (by decide) (by decide)

end KinectServer
